import Mathlib

/-!
# AnsiLove/C command-line front end (`src/main.c`)

A shallow embedding of `main`: option analysis, SAUCE probing, output-path
derivation, content-length adjustment and renderer dispatch.

C strings are lists of characters (no terminating NUL); a `char *` that may be
`NULL` is an `Option`. Everything `main` does to the outside world (writes to
`stderr`, system calls, renderer calls) is recorded, in order, as a list of
`Effect`s. What the outside world answers (the result of `getopt`, of
`sauceReadFileName`, `open`, `fstat`, `mmap`, `pledge`) is an input of the
model.
-/

namespace Ansilove

/-! ## C strings and libc helpers -/

/-- A C string without its terminating NUL. -/
abbrev CStr := List Char

/-- C `strrchr(s, c)`: the tail of `s` that starts at the last occurrence of
`c`, or `NULL` when `c` does not occur. -/
def strrchr : CStr → Char → Option CStr
  | [], _ => none
  | x :: xs, c =>
    match strrchr xs c with
    | some r => some r
    | none => if x = c then some (x :: xs) else none

/-- C `tolower` in the "C" locale: only `A`..`Z` change. -/
def tolower (c : Char) : Char :=
  if 65 ≤ c.toNat ∧ c.toNat ≤ 90 then Char.ofNat (c.toNat + 32) else c

/-- Modelled from the spec: `strtolower` (declared in strtolower.h, which is
not among the sources) yields "the lowercased file extension": every
character of the string is replaced by its lower-case form. -/
def strtolower (s : CStr) : CStr := s.map tolower

/-- C `isspace` in the "C" locale: space, `\t`, `\n`, `\v`, `\f`, `\r`. -/
def isspace (c : Char) : Bool :=
  c.toNat = 32 || (9 ≤ c.toNat && c.toNat ≤ 13)

/-- C `isdigit`. -/
def isdigit (c : Char) : Bool :=
  48 ≤ c.toNat && c.toNat ≤ 57

/-- Smallest `long long`. -/
def LLONG_MIN : Int := -(2 ^ 63)

/-- Largest `long long`. -/
def LLONG_MAX : Int := 2 ^ 63 - 1

/-- The digit loop of `strtoll`: consumes the leading decimal digits, returns
the accumulated value and the unconsumed rest. -/
def scanDigits : Nat → CStr → Nat × CStr
  | acc, [] => (acc, [])
  | acc, c :: cs =>
    if isdigit c then scanDigits (acc * 10 + (c.toNat - 48)) cs else (acc, c :: cs)

/-- What `strtoll(nptr, &ep, 10)` reports: the value, whether any
conversion was performed (`ep != nptr`), the string at `ep`, and whether
`errno` was set to `ERANGE`. -/
structure StrtollResult where
  value : Int
  converted : Bool
  rest : CStr
  erange : Bool
deriving DecidableEq, Repr

/-- C `strtoll(nptr, &ep, 10)`: skips white space, takes an optional sign,
converts the decimal digits that follow; saturates at `LLONG_MIN`/`LLONG_MAX`
with `ERANGE`. Without a digit no conversion is performed and `ep = nptr`. -/
def strtoll (nptr : CStr) : StrtollResult :=
  let s1 := nptr.dropWhile isspace
  let neg := s1.head? = some '-'
  let s2 := if s1.head? = some '-' ∨ s1.head? = some '+' then s1.tail else s1
  match s2 with
  | [] => ⟨0, false, nptr, false⟩
  | c :: _ =>
    if isdigit c then
      let r := scanDigits 0 s2
      let v : Int := if neg then -(r.1 : Int) else (r.1 : Int)
      if v < LLONG_MIN then ⟨LLONG_MIN, true, r.2, true⟩
      else if LLONG_MAX < v then ⟨LLONG_MAX, true, r.2, true⟩
      else ⟨v, true, r.2, false⟩
    else ⟨0, false, nptr, false⟩

/-- The error strings of `strtonum`. -/
inductive StrtonumError where
  | invalid
  | tooSmall
  | tooLarge
deriving DecidableEq, Repr

/-- Modelled from the spec: `strtonum` (declared in strtonum.h, which is not
among the sources) is the validation of §6: the argument is accepted when it
is a decimal integer inside `[minval, maxval]` and rejected otherwise. The
body follows the OpenBSD function: the returned pair is the value (0 on
error) and `*errstrp` (`NULL` on success). -/
def strtonum (numstr : CStr) (minval maxval : Int) : Int × Option StrtonumError :=
  if maxval < minval then (0, some .invalid)
  else
    let r := strtoll numstr
    if !r.converted || r.rest ≠ [] then (0, some .invalid)
    else if (r.value = LLONG_MIN ∧ r.erange) ∨ r.value < minval then (0, some .tooSmall)
    else if (r.value = LLONG_MAX ∧ r.erange) ∨ maxval < r.value then (0, some .tooLarge)
    else (r.value, none)

/-- C `printf("%i", n)` for an `int`: the decimal digits, with a leading
minus sign for a negative number. -/
def fmtInt (n : Int) : CStr :=
  if n < 0 then '-' :: Nat.toDigits 10 n.natAbs else Nat.toDigits 10 n.natAbs

/-! ## Data of the program -/

/-- Modelled from the spec: `SAUCE_ID` (defined in sauce.h, which is not among
the sources) is the fixed 5-byte identifier of the archive record,
"historically SAUCE". -/
def SAUCE_ID : CStr := ['S', 'A', 'U', 'C', 'E']

/-- The fields of `sauce` (sauce.h) that `main` reads. `comments` is the
one-byte comment count of the record (0..255). -/
structure sauce where
  ID : CStr
  version : CStr
  title : CStr
  author : CStr
  group : CStr
  date : CStr
  dataType : Int
  fileType : Int
  tinfo1 : Int
  tinfo2 : Int
  tinfo3 : Int
  tinfo4 : Int
  comments : Nat
  flags : Int
  comment_lines : List CStr
deriving DecidableEq, Repr

/-- The fields of `struct ansilove_options` that `main` uses. -/
structure ansilove_options where
  fileName : Option CStr
  retina : Option CStr
  font : Option CStr
  mode : Option CStr
  bits : Int
  columns : Int
  diz : Bool
  icecolors : Bool
  retinaScaleFactor : Int
deriving DecidableEq, Repr

/-- The integer type of the field `ctx.length`. ansilove.h is not among the
sources, so the width and the signedness of the field are parameters. -/
structure LengthType where
  bits : Nat
  isSigned : Bool
deriving DecidableEq, Repr

/-- The value a field of type `t` holds after the integer `x` is assigned to
it (reduction modulo `2 ^ bits`, into the signed or the unsigned range). -/
def LengthType.store (t : LengthType) (x : Int) : Int :=
  if t.isSigned then (x + 2 ^ (t.bits - 1)) % 2 ^ t.bits - 2 ^ (t.bits - 1)
  else x % 2 ^ t.bits

/-- The length field as libansilove declares it on an LP64 platform:
`size_t`, 64 bits, unsigned. -/
def size_t : LengthType := ⟨64, false⟩

/-- The seven renderer entry points `ansilove_*`. -/
inductive Renderer where
  | ansi
  | pcboard
  | binary
  | artworx
  | icedraw
  | tundra
  | xbin
deriving DecidableEq, Repr

/-- What `main` does to the outside world, one constructor per call. The
`say*` constructors are the `fprintf(stderr, ...)` and `perror` calls, named
after what they print and carrying the values they format. -/
inductive Effect where
  | sayBanner
  | errPledge
  | sayInvalidBits
  | sayInvalidColumns
  | sayInvalidRetina
  | listExamples
  | showHelp
  | versionInfo
  | synopsis
  | sauceReadFileName (fileName : CStr)
  | sayNotFound (input : CStr)
  | sayInput (input : CStr)
  | sayOutput (fileName : Option CStr)
  | sayRetina (retina : Option CStr)
  | openInput (input : CStr)
  | perrorFile
  | fstat
  | perrorStat
  | mmap (length : Int)
  | perrorMemory
  | render (r : Renderer) (length : Int) (options : ansilove_options)
  | sayFont (font : Option CStr)
  | sayBits (bits : Int)
  | sayIce
  | sayColumns (columns : Int)
  | close
  | sayNoSauce (input : CStr)
  | sayId (ID version : CStr)
  | sayTitle (s : CStr)
  | sayAuthor (s : CStr)
  | sayGroup (s : CStr)
  | sayDate (s : CStr)
  | sayDatatype (n : Int)
  | sayFiletype (n : Int)
  | sayFlags (n : Int)
  | sayTinfo (k : Nat) (n : Int)
  | sayComments
  | sayCommentLine (s : CStr)
deriving DecidableEq, Repr

/-- The outside world of one run. -/
structure Env where
  /-- Type of `ctx.length`. -/
  lengthType : LengthType
  /-- The option record as `ansilove_init` leaves it. -/
  init : ansilove_options
  /-- Whether `pledge` succeeds (it returns -1 otherwise). -/
  pledgeOk : Bool
  /-- Answer of `sauceReadFileName`: `none` is `NULL`. -/
  sauceRead : CStr → Option sauce
  /-- Whether `open(input, O_RDONLY)` succeeds. -/
  openOk : CStr → Bool
  /-- Answer of `fstat`: `st.st_size`, or `none` when it returns -1. -/
  stSize : Option Nat
  /-- Whether `mmap` succeeds. -/
  mmapOk : Bool

/-- Exit status `EXIT_SUCCESS`. -/
def EXIT_SUCCESS : Int := 0

/-- Exit status `EXIT_FAILURE`. -/
def EXIT_FAILURE : Int := 1

/-- The result of a run: the exit status, the effects in order, and the
option record as it stands when `main` returns. -/
structure Result where
  status : Int
  effects : List Effect
  options : ansilove_options
deriving DecidableEq, Repr

/-- The local variables of `main` that the option loop writes. -/
structure Locals where
  options : ansilove_options
  output : Option CStr
  justDisplaySAUCE : Bool
deriving DecidableEq, Repr

/-- Outcome of one pass of the option loop: `main` returns, or goes on. -/
inductive Step where
  | exit (status : Int) (say : Effect) (s : Locals)
  | next (s : Locals)
deriving DecidableEq, Repr

/-! ## `main` -/

/-- The body of `switch (getoptFlag)` for one option returned by `getopt`
(lines 147-205). A character without a `case` falls out of the switch. -/
def optionCase (s : Locals) (getoptFlag : Char) (optarg : CStr) : Step :=
  if getoptFlag = 'b' then
    let r := strtonum optarg 8 9
    let s1 := { s with options := { s.options with bits := r.1 } }
    if r.2.isSome then .exit EXIT_FAILURE .sayInvalidBits s1 else .next s1
  else if getoptFlag = 'c' then
    let r := strtonum optarg 1 8192
    let s1 := { s with options := { s.options with columns := r.1 } }
    if r.2.isSome then .exit EXIT_FAILURE .sayInvalidColumns s1 else .next s1
  else if getoptFlag = 'e' then .exit EXIT_SUCCESS .listExamples s
  else if getoptFlag = 'f' then
    .next { s with options := { s.options with font := some optarg } }
  else if getoptFlag = 'h' then .exit EXIT_SUCCESS .showHelp s
  else if getoptFlag = 'i' then
    .next { s with options := { s.options with icecolors := true } }
  else if getoptFlag = 'm' then
    .next { s with options := { s.options with mode := some optarg } }
  else if getoptFlag = 'o' then .next { s with output := some optarg }
  else if getoptFlag = 'r' then
    .next { s with options := { s.options with retinaScaleFactor := 2 } }
  else if getoptFlag = 'R' then
    let r := strtonum optarg 2 8
    let s1 := { s with options := { s.options with retinaScaleFactor := r.1 } }
    if r.2.isSome then .exit EXIT_FAILURE .sayInvalidRetina s1 else .next s1
  else if getoptFlag = 's' then .next { s with justDisplaySAUCE := true }
  else if getoptFlag = 'v' then .exit EXIT_SUCCESS .versionInfo s
  else .next s

/-- The `while ((getoptFlag = getopt(...)) != -1)` loop (lines 146-206) over
the options `getopt` returns, each with its `optarg`. -/
def optionLoop : Locals → List (Char × CStr) → Step
  | s, [] => .next s
  | s, (flag, optarg) :: rest =>
    match optionCase s flag optarg with
    | .exit status say s1 => .exit status say s1
    | .next s1 => optionLoop s1 rest

/-- The locals when the option loop starts (lines 119-140). -/
def start (env : Env) : Locals :=
  { options := env.init, output := none, justDisplaySAUCE := false }

/-- Lines 236-247: the primary output path and, when a scale factor is set,
the path of the scaled variant. -/
def outputNames (input : CStr) (output : Option CStr) (o : ansilove_options) :
    ansilove_options :=
  let o1 : ansilove_options :=
    match output with
    | none => { o with fileName := some (input ++ ['.', 'p', 'n', 'g']) }
    | some outputName => { o with fileName := some outputName }
  if o1.retinaScaleFactor ≠ 0 then
    { o1 with retina := some ((o1.fileName.getD []) ++ ['@'] ++
        fmtInt o1.retinaScaleFactor ++ ['x', '.', 'p', 'n', 'g']) }
  else o1

/-- Lines 249-257: the defaults of `mode` and `font`. -/
def applyDefaults (o : ansilove_options) : ansilove_options :=
  let o1 := if o.mode.isNone then { o with mode := some [] } else o
  if o1.font.isNone then { o1 with font := some ['8', '0', 'x', '2', '5'] } else o1

/-- Lines 267-269: the lower-cased extension, from the last `.` on, or the
empty string. -/
def fileExtension (input : CStr) : CStr :=
  match strrchr input '.' with
  | some fext => strtolower fext
  | none => []

/-- Lines 296-300: the adjustment of `ctx.length` when the file has a SAUCE
record. C parses `a -= b - c` as `a = a - (b - c)`; the right-hand side is
computed in `int`, the result is stored in the length field. -/
def adjustLength (t : LengthType) (length : Int) (saucerec : sauce) : Int :=
  t.store (length - (129 - (if saucerec.comments > 0 then 5 + 64 * (saucerec.comments : Int) else 0)))

/-- Lines 302-327: the renderer selected by the `strcmp` chain on `fext`. -/
def selectRenderer (fext : CStr) : Renderer :=
  if fext = ['.', 'p', 'c', 'b'] then .pcboard
  else if fext = ['.', 'b', 'i', 'n'] then .binary
  else if fext = ['.', 'a', 'd', 'f'] then .artworx
  else if fext = ['.', 'i', 'd', 'f'] then .icedraw
  else if fext = ['.', 't', 'n', 'd'] then .tundra
  else if fext = ['.', 'x', 'b'] then .xbin
  else .ansi

/-- Lines 329-340: the report after rendering. -/
def reportRender (r : Renderer) (o : ansilove_options) : List Effect :=
  (if r = .ansi ∨ r = .binary ∨ r = .pcboard ∨ r = .tundra then
    [.sayFont o.font, .sayBits o.bits] else []) ++
  (if o.icecolors ∧ (r = .ansi ∨ r = .binary) then [.sayIce] else []) ++
  (if r = .binary then [.sayColumns o.columns] else [])

/-- Lines 347-379: the SAUCE record, or the notice that there is none. -/
def reportSauce (input : CStr) (fileHasSAUCE : Bool) (record : sauce) : List Effect :=
  if !fileHasSAUCE then [.sayNoSauce input]
  else
    [.sayId record.ID record.version, .sayTitle record.title, .sayAuthor record.author,
      .sayGroup record.group, .sayDate record.date, .sayDatatype record.dataType,
      .sayFiletype record.fileType] ++
    (if record.flags ≠ 0 then [.sayFlags record.flags] else []) ++
    (if record.tinfo1 ≠ 0 then [.sayTinfo 1 record.tinfo1] else []) ++
    (if record.tinfo2 ≠ 0 then [.sayTinfo 2 record.tinfo2] else []) ++
    (if record.tinfo3 ≠ 0 then [.sayTinfo 3 record.tinfo3] else []) ++
    (if record.tinfo4 ≠ 0 then [.sayTinfo 4 record.tinfo4] else []) ++
    (if record.comments > 0 then
      .sayComments :: (List.range record.comments).map
        (fun i => .sayCommentLine (record.comment_lines.getD i []))
    else [])

/-- Lines 271-273: a `.diz` extension sets the `diz` flag. -/
def markDiz (fext : CStr) (o : ansilove_options) : ansilove_options :=
  if fext = ['.', 'd', 'i', 'z'] then { o with diz := true } else o

/-- The option record after lines 232-273. -/
def preparedOptions (input : CStr) (output : Option CStr) (o : ansilove_options) :
    ansilove_options :=
  markDiz (fileExtension input) (applyDefaults (outputNames input output o))

/-- Lines 259-265: the names of the input and output files are displayed. -/
def reportNames (input : CStr) (o : ansilove_options) : List Effect :=
  [.sayInput input, .sayOutput o.fileName] ++
    (if o.retinaScaleFactor ≠ 0 then [.sayRetina o.retina] else [])

/-- Lines 232-345: the block run when `justDisplaySAUCE` is false. It
returns early (`Except.error`) when the input cannot be opened, stat-ed or
mapped; otherwise it yields the effects and the option record. The second
`sauceReadFileName` call answers as the first one did (`record`). -/
def renderBlock (env : Env) (input : CStr) (output : Option CStr) (fileHasSAUCE : Bool)
    (record : sauce) (o : ansilove_options) : Except Result (List Effect × ansilove_options) :=
  let o1 := applyDefaults (outputNames input output o)
  let e1 := reportNames input o1
  let fext := fileExtension input
  let o2 := markDiz fext o1
  if !env.openOk input then
    .error ⟨1, e1 ++ [.openInput input, .perrorFile], o2⟩
  else
    match env.stSize with
    | none => .error ⟨1, e1 ++ [.openInput input, .fstat, .perrorStat], o2⟩
    | some st_size =>
      let length0 := env.lengthType.store st_size
      if !env.mmapOk then
        .error ⟨2, e1 ++ [.openInput input, .fstat, .mmap length0, .perrorMemory], o2⟩
      else
        let e2 := e1 ++ [.openInput input, .fstat, .mmap length0]
        let e3 := if fileHasSAUCE then e2 ++ [.sauceReadFileName input] else e2
        let length := if fileHasSAUCE then adjustLength env.lengthType length0 record
          else length0
        let r := selectRenderer fext
        .ok (e3 ++ [.render r length o2] ++ reportRender r o2 ++ [.close], o2)

/-- The function `main` (lines 114-382). `opts` are the options `getopt`
returns, in order, each with its `optarg`; `operands` is `argv` from
`optind` on. -/
def main (env : Env) (opts : List (Char × CStr)) (operands : List CStr) : Result :=
  if !env.pledgeOk then ⟨EXIT_FAILURE, [.sayBanner, .errPledge], env.init⟩
  else
    match optionLoop (start env) opts with
    | .exit status say s => ⟨status, [.sayBanner, say], s.options⟩
    | .next s =>
      match operands with
      | [] => ⟨EXIT_SUCCESS, [.sayBanner, .synopsis], s.options⟩
      | input :: _ =>
        match env.sauceRead input with
        | none =>
          ⟨EXIT_FAILURE, [.sayBanner, .sauceReadFileName input, .sayNotFound input], s.options⟩
        | some record =>
          let fileHasSAUCE : Bool := record.ID = SAUCE_ID
          let e0 : List Effect := [.sayBanner, .sauceReadFileName input]
          if !s.justDisplaySAUCE then
            match renderBlock env input s.output fileHasSAUCE record s.options with
            | .error res => { res with effects := e0 ++ res.effects }
            | .ok (e, o) => ⟨EXIT_SUCCESS, e0 ++ e ++ reportSauce input fileHasSAUCE record, o⟩
          else
            ⟨EXIT_SUCCESS, e0 ++ reportSauce input fileHasSAUCE record, s.options⟩

/-- The renderer call an effect is, if it is one: the entry point and the
length handed to it. -/
def Effect.asRender : Effect → Option (Renderer × Int)
  | .render r length _ => some (r, length)
  | _ => none

/-- The renderer calls among the effects, in order. -/
def rendererCalls (l : List Effect) : List Renderer :=
  l.filterMap (fun e => e.asRender.map Prod.fst)

/-- The lengths handed to the renderer calls among the effects, in order. -/
def renderLengths (l : List Effect) : List Int :=
  l.filterMap (fun e => e.asRender.map Prod.snd)

/-! ## Vocabulary of the statements -/

/-- The integer `x` is representable in the type `t`. -/
def LengthType.fits (t : LengthType) (x : Int) : Prop :=
  if t.isSigned then 1 ≤ t.bits ∧ -(2 ^ (t.bits - 1)) ≤ x ∧ x < 2 ^ (t.bits - 1)
  else 0 ≤ x ∧ x < 2 ^ t.bits

instance (t : LengthType) (x : Int) : Decidable (t.fits x) := by
  unfold LengthType.fits; infer_instance

/-- A run of `main` that is a conversion of `input`: `pledge` succeeds, the
option loop runs to its end and leaves the locals `s`, without `-s`; `input`
is the first operand; `sauceReadFileName` answers `record`; the input is
opened, stat-ed with size `S`, and mapped. -/
structure Converts (env : Env) (opts : List (Char × CStr)) (operands : List CStr)
    (s : Locals) (input : CStr) (record : sauce) (S : Nat) : Prop where
  pledge : env.pledgeOk = true
  loop : optionLoop (start env) opts = .next s
  render : s.justDisplaySAUCE = false
  operand : operands.head? = some input
  probe : env.sauceRead input = some record
  opened : env.openOk input = true
  size : env.stSize = some S
  mapped : env.mmapOk = true

/-- The value of `ctx.length` at the renderer call of a conversion (lines
287-300). -/
def passedLength (env : Env) (record : sauce) (S : Nat) : Int :=
  if record.ID = SAUCE_ID then adjustLength env.lengthType (env.lengthType.store S) record
  else env.lengthType.store S

/-- The effects of the render block when the input is opened, stat-ed and
mapped. -/
def conversionEffects (env : Env) (input : CStr) (record : sauce) (S : Nat)
    (o : ansilove_options) : List Effect :=
  reportNames input o ++
    [.openInput input, .fstat, .mmap (env.lengthType.store S)] ++
    (if record.ID = SAUCE_ID then [.sauceReadFileName input] else []) ++
    [.render (selectRenderer (fileExtension input)) (passedLength env record S) o] ++
    reportRender (selectRenderer (fileExtension input)) o ++ [.close]

/-- A run of `main` that reaches the block of lines 232-345: `pledge`
succeeds, the option loop runs to its end and leaves the locals `s`, without
`-s`; `input` is the first operand; `sauceReadFileName` answers `record`. -/
structure Prepares (env : Env) (opts : List (Char × CStr)) (operands : List CStr)
    (s : Locals) (input : CStr) (record : sauce) : Prop where
  pledge : env.pledgeOk = true
  loop : optionLoop (start env) opts = .next s
  render : s.justDisplaySAUCE = false
  operand : operands.head? = some input
  probe : env.sauceRead input = some record

/-- The option `flag` is not among the options `getopt` returns. -/
def Absent (flag : Char) (opts : List (Char × CStr)) : Prop :=
  ∀ p ∈ opts, p.1 ≠ flag

instance (flag : Char) (opts : List (Char × CStr)) : Decidable (Absent flag opts) := by
  unfold Absent; infer_instance

/-- The value of a string of decimal digits. -/
def decimalValue (ds : CStr) : Nat :=
  ds.foldl (fun acc c => acc * 10 + (c.toNat - 48)) 0

/-- The string `a` denotes the integer `n` in decimal: optional white space,
an optional sign, then one or more digits and nothing else. -/
def Denotes (a : CStr) (n : Int) : Prop :=
  ∃ ws sign ds : CStr, a = ws ++ sign ++ ds ∧ (∀ c ∈ ws, isspace c = true) ∧
    ds ≠ [] ∧ (∀ c ∈ ds, isdigit c = true) ∧
    (((sign = [] ∨ sign = ['+']) ∧ n = decimalValue ds) ∨
      (sign = ['-'] ∧ n = -(decimalValue ds : Int)))

/-- The effect works on the input file for rendering: it opens, stats, maps
or closes it, or calls a renderer. -/
def Effect.touchesInput : Effect → Bool
  | .openInput _ => true
  | .fstat => true
  | .mmap _ => true
  | .render _ _ _ => true
  | .close => true
  | _ => false

/-! ## Sample inputs -/

/-- A 64-bit signed length field, for comparison with `size_t`. -/
def int64_t : LengthType := ⟨64, true⟩

/-- A SAUCE record with the given comment count and empty text fields. -/
def sampleRecord (comments : Nat) : sauce :=
  { ID := SAUCE_ID, version := ['0', '0'], title := [], author := [], group := [], date := [],
    dataType := 1, fileType := 1, tinfo1 := 80, tinfo2 := 25, tinfo3 := 0, tinfo4 := 0,
    comments := comments, flags := 0, comment_lines := List.replicate comments [] }

/-- What `sauceReadFileName` answers for a file without a SAUCE record: a
record whose `ID` is empty. -/
def blankRecord : sauce :=
  { ID := [], version := [], title := [], author := [], group := [], date := [],
    dataType := 0, fileType := 0, tinfo1 := 0, tinfo2 := 0, tinfo3 := 0, tinfo4 := 0,
    comments := 0, flags := 0, comment_lines := [] }

/-- Modelled from the spec: the option record after `ansilove_init` (part of
the rendering library, not among the sources): "columns default = 160, bits
default = 8", nothing else set. -/
def defaultOptions : ansilove_options :=
  { fileName := none, retina := none, font := none, mode := none, bits := 8, columns := 160,
    diz := false, icecolors := false, retinaScaleFactor := 0 }

/-- A world with one readable file of `S` bytes, whatever its name, for which
`sauceReadFileName` answers `record`. -/
def sampleEnv (t : LengthType) (record : sauce) (S : Nat) : Env :=
  { lengthType := t, init := defaultOptions, pledgeOk := true,
    sauceRead := fun _ => some record, openOk := fun _ => true, stSize := some S,
    mmapOk := true }

/-- The input path `art.ans`. -/
def artAns : CStr := ['a', 'r', 't', '.', 'a', 'n', 's']

/-- The input path `demo.BiN`. -/
def demoBin : CStr := ['d', 'e', 'm', 'o', '.', 'B', 'i', 'N']

/-- The input path `FILE_ID.DIZ`. -/
def fileIdDiz : CStr := ['F', 'I', 'L', 'E', '_', 'I', 'D', '.', 'D', 'I', 'Z']

/-- The output path `out/final.png`. -/
def outFinalPng : CStr := ['o', 'u', 't', '/', 'f', 'i', 'n', 'a', 'l', '.', 'p', 'n', 'g']

/-! ## Helper lemmas -/

theorem store_of_fits (t : LengthType) (x : Int) (h : t.fits x) : t.store x = x := by
  unfold LengthType.fits at h
  unfold LengthType.store
  split at h
  · rename_i hs
    simp only [hs, if_true]
    obtain ⟨hb, h1, h2⟩ := h
    have hp : (2 : Int) ^ t.bits = 2 * 2 ^ (t.bits - 1) := by
      conv_lhs => rw [show t.bits = (t.bits - 1) + 1 by omega]
      rw [pow_succ]; ring
    rw [hp, Int.emod_eq_of_lt (by omega) (by omega)]
    omega
  · rename_i hs
    simp only [hs]
    exact Int.emod_eq_of_lt h.1 h.2

theorem asRender_reportNames (input : CStr) (o : ansilove_options) :
    ∀ e ∈ reportNames input o, e.asRender = none := by
  intro e he
  unfold reportNames at he
  split at he <;> simp at he
  · rcases he with h | h | h <;> subst h <;> rfl
  · rcases he with h | h <;> subst h <;> rfl

theorem asRender_reportRender (r : Renderer) (o : ansilove_options) :
    ∀ e ∈ reportRender r o, e.asRender = none := by
  intro e he
  unfold reportRender at he
  simp only [List.mem_append] at he
  rcases he with (he | he) | he <;> split at he <;> simp at he
  · rcases he with h | h <;> subst h <;> rfl
  · subst he; rfl
  · subst he; rfl

theorem asRender_reportSauce (input : CStr) (b : Bool) (record : sauce) :
    ∀ e ∈ reportSauce input b record, e.asRender = none := by
  intro e he
  unfold reportSauce at he
  split at he
  · simp at he; subst he; rfl
  · simp only [List.mem_append] at he
    rcases he with ((((((he | he) | he) | he) | he) | he) | he)
    · simp at he
      rcases he with h | h | h | h | h | h | h <;> subst h <;> rfl
    all_goals split at he <;> simp at he
    · subst he; rfl
    · subst he; rfl
    · subst he; rfl
    · subst he; rfl
    · subst he; rfl
    · rcases he with h | ⟨i, _, h⟩ <;> subst h <;> rfl

theorem markDiz_fileName (fext : CStr) (o : ansilove_options) :
    (markDiz fext o).fileName = o.fileName := by
  unfold markDiz; split <;> rfl

theorem markDiz_retina (fext : CStr) (o : ansilove_options) :
    (markDiz fext o).retina = o.retina := by
  unfold markDiz; split <;> rfl

theorem markDiz_retinaScaleFactor (fext : CStr) (o : ansilove_options) :
    (markDiz fext o).retinaScaleFactor = o.retinaScaleFactor := by
  unfold markDiz; split <;> rfl

theorem reportNames_markDiz (input fext : CStr) (o : ansilove_options) :
    reportNames input (markDiz fext o) = reportNames input o := by
  simp only [reportNames, markDiz_fileName, markDiz_retina, markDiz_retinaScaleFactor]

theorem main_converts {env : Env} {opts : List (Char × CStr)} {operands : List CStr}
    {s : Locals} {input : CStr} {record : sauce} {S : Nat}
    (h : Converts env opts operands s input record S) :
    main env opts operands =
      ⟨EXIT_SUCCESS,
        [.sayBanner, .sauceReadFileName input] ++
          conversionEffects env input record S (preparedOptions input s.output s.options) ++
          reportSauce input (record.ID = SAUCE_ID) record,
        preparedOptions input s.output s.options⟩ := by
  obtain ⟨hp, hl, hr, ho, hpr, hop, hs, hm⟩ := h
  cases operands with
  | nil => simp at ho
  | cons i rest =>
    simp only [List.head?_cons, Option.some.injEq] at ho
    subst ho
    unfold main
    simp only [hp, hl, hpr, hr, renderBlock, hop, hs, hm]
    by_cases hid : record.ID = SAUCE_ID
    · simp [hid, conversionEffects, passedLength, preparedOptions, reportNames_markDiz]
    · simp [hid, conversionEffects, passedLength, preparedOptions, reportNames_markDiz]

theorem filterMap_asRender_nil {β : Type} (g : Renderer × Int → β) (l : List Effect)
    (h : ∀ e ∈ l, e.asRender = none) : l.filterMap (fun e => e.asRender.map g) = [] := by
  rw [List.filterMap_eq_nil_iff]
  intro e he
  simp [h e he]

theorem filterMap_conversionEffects {β : Type} (g : Renderer × Int → β) (env : Env)
    (input : CStr) (record : sauce) (S : Nat) (o : ansilove_options) (b : Bool) :
    ([Effect.sayBanner, .sauceReadFileName input] ++ conversionEffects env input record S o ++
      reportSauce input b record).filterMap (fun e => e.asRender.map g) =
      [g (selectRenderer (fileExtension input), passedLength env record S)] := by
  unfold conversionEffects
  simp only [List.filterMap_append, filterMap_asRender_nil g _ (asRender_reportNames _ _),
    filterMap_asRender_nil g _ (asRender_reportRender _ _),
    filterMap_asRender_nil g _ (asRender_reportSauce _ _ _)]
  split <;> simp [Effect.asRender]

theorem rendererCalls_main {env : Env} {opts : List (Char × CStr)} {operands : List CStr}
    {s : Locals} {input : CStr} {record : sauce} {S : Nat}
    (h : Converts env opts operands s input record S) :
    rendererCalls (main env opts operands).effects = [selectRenderer (fileExtension input)] := by
  rw [main_converts h]
  exact filterMap_conversionEffects Prod.fst _ _ _ _ _ _

theorem renderLengths_main {env : Env} {opts : List (Char × CStr)} {operands : List CStr}
    {s : Locals} {input : CStr} {record : sauce} {S : Nat}
    (h : Converts env opts operands s input record S) :
    renderLengths (main env opts operands).effects = [passedLength env record S] := by
  rw [main_converts h]
  exact filterMap_conversionEffects Prod.snd _ _ _ _ _ _


theorem converts_sample (t : LengthType) (record : sauce) (S : Nat) :
    Converts (sampleEnv t record S) [] [artAns] (start (sampleEnv t record S)) artAns record S :=
  ⟨rfl, rfl, rfl, rfl, rfl, rfl, rfl, rfl⟩

/-! ## Content length (C1 - C4) -/

/-- C1 (the code departs from the claim): for a 1000-byte file whose SAUCE
record has one comment line, `main` hands the renderer the length
1000 - (129 - 69) = 940: the comment block is added back, not subtracted; the
claim's value is 1000 - 129 - 69 = 802. -/
theorem C1_length_with_one_comment :
    renderLengths (main (sampleEnv size_t (sampleRecord 1) 1000) [] [artAns]).effects = [940] ∧
      (940 : Int) ≠ 1000 - 129 - (5 + 64 * 1) := by
  decide

theorem passedLength_no_record {env : Env} {record : sauce} {S : Nat}
    (hid : record.ID ≠ SAUCE_ID) (hS : env.lengthType.fits S) :
    passedLength env record S = S := by
  simp only [passedLength, hid, if_false]
  exact store_of_fits _ _ hS

theorem passedLength_no_comments {env : Env} {record : sauce} {S : Nat}
    (hid : record.ID = SAUCE_ID) (hc : record.comments = 0) (hS : env.lengthType.fits S) :
    passedLength env record S = env.lengthType.store ((S : Int) - 129) := by
  simp only [passedLength, hid, if_true, adjustLength, hc]
  rw [store_of_fits _ _ hS]
  simp

theorem fits_sub {t : LengthType} {S : Nat} (hS : t.fits S) (h : 129 ≤ S) :
    t.fits ((S : Int) - 129) := by
  unfold LengthType.fits at *
  by_cases hs : t.isSigned = true
  · simp only [hs, if_true] at hS ⊢
    obtain ⟨h1, h2, h3⟩ := hS
    exact ⟨h1, by omega, by omega⟩
  · have hs2 : t.isSigned = false := by simpa using hs
    simp only [hs2, Bool.false_eq_true, if_false] at hS ⊢
    exact ⟨by omega, by omega⟩

theorem two_pow_ge {n : Nat} (h : 8 ≤ n) : (256 : Int) ≤ 2 ^ n := by
  have : (2 : Int) ^ 8 ≤ 2 ^ n := pow_le_pow_right₀ (by norm_num) h
  simpa using this

theorem store_below {t : LengthType} {S : Nat} (hb : 16 ≤ t.bits) (hS : t.fits S)
    (h : S < 129) :
    t.store ((S : Int) - 129) =
      if t.isSigned then (S : Int) - 129 else 2 ^ t.bits + (S : Int) - 129 := by
  have h1 := two_pow_ge (show 8 ≤ t.bits by omega)
  have h2 := two_pow_ge (show 8 ≤ t.bits - 1 by omega)
  by_cases hs : t.isSigned = true
  · simp only [hs, if_true]
    apply store_of_fits
    unfold LengthType.fits at hS ⊢
    simp only [hs, if_true] at hS ⊢
    exact ⟨by omega, by omega, by omega⟩
  · have hs2 : t.isSigned = false := by simpa using hs
    unfold LengthType.fits at hS
    unfold LengthType.store
    simp only [hs2, Bool.false_eq_true, if_false] at hS ⊢
    have e : ((S : Int) - 129) % 2 ^ t.bits = ((S : Int) - 129 + 2 ^ t.bits) % 2 ^ t.bits := by
      rw [Int.add_emod_self]
    rw [e, Int.emod_eq_of_lt (by omega) (by omega)]
    omega

/-- C2 (counterexample): a 128-byte file whose SAUCE record has no comment is
not rejected. `main` prints the file names, opens, stats and maps the file,
calls the ANSI renderer, reports and exits with status 0; the length it hands
over is 128 - 129 wrapped into the length field: 2^64 - 1 for `size_t` (and
-1 if the field were a signed 64-bit integer). -/
theorem C2_128_byte_file_is_rendered :
    (main (sampleEnv size_t (sampleRecord 0) 128) [] [artAns]).status = EXIT_SUCCESS ∧
      (main (sampleEnv size_t (sampleRecord 0) 128) [] [artAns]).effects =
        [.sayBanner, .sauceReadFileName artAns, .sayInput artAns,
          .sayOutput (some (artAns ++ ['.', 'p', 'n', 'g'])), .openInput artAns, .fstat,
          .mmap 128, .sauceReadFileName artAns,
          .render .ansi 18446744073709551615
            (main (sampleEnv size_t (sampleRecord 0) 128) [] [artAns]).options,
          .sayFont (some ['8', '0', 'x', '2', '5']), .sayBits 8, .close,
          .sayId SAUCE_ID ['0', '0'], .sayTitle [], .sayAuthor [], .sayGroup [], .sayDate [],
          .sayDatatype 1, .sayFiletype 1, .sayTinfo 1 80, .sayTinfo 2 25] ∧
      rendererCalls (main (sampleEnv size_t (sampleRecord 0) 128) [] [artAns]).effects =
        [Renderer.ansi] ∧
      renderLengths (main (sampleEnv size_t (sampleRecord 0) 128) [] [artAns]).effects =
        [18446744073709551615] ∧
      renderLengths (main (sampleEnv int64_t (sampleRecord 0) 128) [] [artAns]).effects =
        [-1] := by
  decide

/-- C2 (amended): `main` has no bounds check on the adjusted length. Every
conversion, whatever the record and the file size, calls exactly one renderer
and ends with exit status 0, no malformed-input condition being reported;
when the record has no comment and the file is shorter than 129 bytes, the
length handed to the renderer is S - 129 wrapped into the length field
(2^bits + S - 129 for an unsigned field, S - 129 for a signed one), a value
that is negative or larger than S. -/
theorem C2_no_bounds_check {env : Env} {opts : List (Char × CStr)} {operands : List CStr}
    {s : Locals} {input : CStr} {record : sauce} {S : Nat}
    (h : Converts env opts operands s input record S) :
    (main env opts operands).status = EXIT_SUCCESS ∧
      rendererCalls (main env opts operands).effects = [selectRenderer (fileExtension input)] ∧
      (record.ID = SAUCE_ID → record.comments = 0 → S < 129 → 16 ≤ env.lengthType.bits →
        env.lengthType.fits S →
        renderLengths (main env opts operands).effects =
          [if env.lengthType.isSigned then (S : Int) - 129
            else 2 ^ env.lengthType.bits + (S : Int) - 129] ∧
        ∀ L ∈ renderLengths (main env opts operands).effects, L < 0 ∨ (S : Int) < L) := by
  refine ⟨by rw [main_converts h], rendererCalls_main h, ?_⟩
  intro hid hc hlt hb hS
  have hp := passedLength_no_comments hid hc hS
  rw [store_below hb hS hlt] at hp
  rw [renderLengths_main h, hp]
  refine ⟨rfl, ?_⟩
  intro L hL
  simp only [List.mem_singleton] at hL
  subst hL
  have h1 := two_pow_ge (show 8 ≤ env.lengthType.bits by omega)
  split <;> omega

/-- C2 (witness): the amended statement at the 128-byte file, `size_t`. -/
theorem C2_no_bounds_check_witness :
    (main (sampleEnv size_t (sampleRecord 0) 128) [] [artAns]).status = EXIT_SUCCESS ∧
      rendererCalls (main (sampleEnv size_t (sampleRecord 0) 128) [] [artAns]).effects =
        [selectRenderer (fileExtension artAns)] ∧
      renderLengths (main (sampleEnv size_t (sampleRecord 0) 128) [] [artAns]).effects =
        [2 ^ 64 + (128 : Int) - 129] := by
  have h := C2_no_bounds_check (converts_sample size_t (sampleRecord 0) 128)
  exact ⟨h.1, h.2.1, (h.2.2 rfl rfl (by decide) (by decide) (by decide)).1⟩

/-- C3 (counterexample): for the 128-byte file whose record has no comment, the
length handed to the renderer is 2^64 - 1, which exceeds the file size 128.
(With a record of two comment lines and a 1000-byte file the length is 1004:
there the excess comes from the sign slip of C1.) -/
theorem C3_length_exceeds_file_size :
    renderLengths (main (sampleEnv size_t (sampleRecord 0) 128) [] [artAns]).effects =
        [18446744073709551615] ∧
      ¬ ((18446744073709551615 : Int) ≤ 128) ∧
      renderLengths (main (sampleEnv size_t (sampleRecord 2) 1000) [] [artAns]).effects =
        [1004] := by
  decide

/-- C3 (amended): in a conversion of a file of S bytes, when the file has no
SAUCE record, or has one without comments and S ≥ 129, exactly one length is
handed to the renderer and it lies in 0..S (it is S without a record and
S - 129 with one). -/
theorem C3_length_within_file {env : Env} {opts : List (Char × CStr)}
    {operands : List CStr} {s : Locals} {input : CStr} {record : sauce} {S : Nat}
    (h : Converts env opts operands s input record S) (hS : env.lengthType.fits S)
    (hrec : record.ID ≠ SAUCE_ID ∨ (record.comments = 0 ∧ 129 ≤ S)) :
    ∃ L : Int, renderLengths (main env opts operands).effects = [L] ∧ 0 ≤ L ∧ L ≤ S ∧
      L = if record.ID = SAUCE_ID then (S : Int) - 129 else S := by
  refine ⟨passedLength env record S, renderLengths_main h, ?_⟩
  by_cases hid : record.ID = SAUCE_ID
  · rcases hrec with hn | ⟨hc, hge⟩
    · exact absurd hid hn
    · rw [passedLength_no_comments hid hc hS, store_of_fits _ _ (fits_sub hS hge)]
      simp only [hid, if_true]
      exact ⟨by omega, by omega, trivial⟩
  · rw [passedLength_no_record hid hS]
    simp only [hid, if_false]
    exact ⟨by omega, by omega, trivial⟩

/-- C3 (witness): a 1000-byte file with a record without comments, and a
1000-byte file without a record. -/
theorem C3_length_within_file_witness :
    (∃ L : Int, renderLengths (main (sampleEnv size_t (sampleRecord 0) 1000) [] [artAns]).effects
        = [L] ∧ 0 ≤ L ∧ L ≤ (1000 : Nat) ∧
        L = if (sampleRecord 0).ID = SAUCE_ID then ((1000 : Nat) : Int) - 129 else (1000 : Nat)) ∧
      (∃ L : Int, renderLengths (main (sampleEnv size_t blankRecord 1000) [] [artAns]).effects
        = [L] ∧ 0 ≤ L ∧ L ≤ (1000 : Nat) ∧
        L = if blankRecord.ID = SAUCE_ID then ((1000 : Nat) : Int) - 129 else (1000 : Nat)) :=
  ⟨C3_length_within_file (converts_sample size_t (sampleRecord 0) 1000) (by decide)
      (Or.inr ⟨rfl, by decide⟩),
    C3_length_within_file (converts_sample size_t blankRecord 1000) (by decide)
      (Or.inl (by decide))⟩

/-- C4 (counterexample): for the 128-byte file whose record has no comment, the
length handed to the renderer is 2^64 - 1, not 128 - 129. -/
theorem C4_length_wraps_at_128 :
    renderLengths (main (sampleEnv size_t (sampleRecord 0) 128) [] [artAns]).effects ≠
      [(128 : Int) - 129] := by
  decide

/-- C4 (amended): in a conversion of a file of S ≥ 129 bytes that has a SAUCE
record with commentCount = 0, the length handed to the renderer is S - 129. -/
theorem C4_length_without_comments {env : Env} {opts : List (Char × CStr)}
    {operands : List CStr} {s : Locals} {input : CStr} {record : sauce} {S : Nat}
    (h : Converts env opts operands s input record S) (hS : env.lengthType.fits S)
    (hid : record.ID = SAUCE_ID) (hc : record.comments = 0) (hge : 129 ≤ S) :
    renderLengths (main env opts operands).effects = [(S : Int) - 129] := by
  rw [renderLengths_main h, passedLength_no_comments hid hc hS,
    store_of_fits _ _ (fits_sub hS hge)]

/-- C4 (witness): a 1000-byte file whose record has no comment: length 871. -/
theorem C4_length_without_comments_witness :
    renderLengths (main (sampleEnv size_t (sampleRecord 0) 1000) [] [artAns]).effects =
      [((1000 : Nat) : Int) - 129] :=
  C4_length_without_comments (converts_sample size_t (sampleRecord 0) 1000) (by decide)
    rfl rfl (by decide)

/-! ## The option loop -/

theorem optionLoop_append (s : Locals) (xs ys : List (Char × CStr)) :
    optionLoop s (xs ++ ys) =
      match optionLoop s xs with
      | .exit status say s1 => .exit status say s1
      | .next s1 => optionLoop s1 ys := by
  induction xs generalizing s with
  | nil => rfl
  | cons x xs ih =>
    obtain ⟨flag, optarg⟩ := x
    simp only [List.cons_append, optionLoop]
    cases optionCase s flag optarg with
    | exit status say s1 => rfl
    | next s1 => exact ih s1

theorem optionLoop_split {s t : Locals} {xs ys : List (Char × CStr)}
    (h : optionLoop s (xs ++ ys) = .next t) :
    ∃ m, optionLoop s xs = .next m ∧ optionLoop m ys = .next t := by
  rw [optionLoop_append] at h
  cases hx : optionLoop s xs with
  | exit status say s1 => rw [hx] at h; cases h
  | next m => rw [hx] at h; exact ⟨m, rfl, h⟩

theorem optionLoop_cons {s t : Locals} {flag : Char} {optarg : CStr}
    {ys : List (Char × CStr)} (h : optionLoop s ((flag, optarg) :: ys) = .next t) :
    ∃ m, optionCase s flag optarg = .next m ∧ optionLoop m ys = .next t := by
  simp only [optionLoop] at h
  cases hx : optionCase s flag optarg with
  | exit status say s1 => rw [hx] at h; cases h
  | next m => rw [hx] at h; exact ⟨m, rfl, h⟩

/-- A property of the locals that every option other than those in `flags`
preserves is preserved by a loop over options outside `flags`. -/
theorem optionLoop_frame (P : Locals → Prop) (flags : List Char)
    (hcase : ∀ s flag optarg m, flag ∉ flags → optionCase s flag optarg = .next m → P s → P m)
    {s t : Locals} {opts : List (Char × CStr)} (habs : ∀ p ∈ opts, p.1 ∉ flags)
    (h : optionLoop s opts = .next t) (hs : P s) : P t := by
  induction opts generalizing s with
  | nil => simp only [optionLoop] at h; cases h; exact hs
  | cons x xs ih =>
    obtain ⟨flag, optarg⟩ := x
    obtain ⟨m, hm, hrest⟩ := optionLoop_cons h
    exact ih (fun p hp => habs p (List.mem_cons_of_mem _ hp)) hrest
      (hcase s flag optarg m (habs (flag, optarg) (List.mem_cons_self _ _)) hm hs)

theorem optionCase_eq (s : Locals) (flag : Char) (optarg : CStr) :
    optionCase s flag optarg =
  if flag = 'b' then
    if (strtonum optarg 8 9).2.isSome then
      .exit EXIT_FAILURE .sayInvalidBits
        { s with options := { s.options with bits := (strtonum optarg 8 9).1 } }
    else .next { s with options := { s.options with bits := (strtonum optarg 8 9).1 } }
  else if flag = 'c' then
    if (strtonum optarg 1 8192).2.isSome then
      .exit EXIT_FAILURE .sayInvalidColumns
        { s with options := { s.options with columns := (strtonum optarg 1 8192).1 } }
    else .next { s with options := { s.options with columns := (strtonum optarg 1 8192).1 } }
  else if flag = 'e' then .exit EXIT_SUCCESS .listExamples s
  else if flag = 'f' then
    .next { s with options := { s.options with font := some optarg } }
  else if flag = 'h' then .exit EXIT_SUCCESS .showHelp s
  else if flag = 'i' then
    .next { s with options := { s.options with icecolors := true } }
  else if flag = 'm' then
    .next { s with options := { s.options with mode := some optarg } }
  else if flag = 'o' then .next { s with output := some optarg }
  else if flag = 'r' then
    .next { s with options := { s.options with retinaScaleFactor := 2 } }
  else if flag = 'R' then
    if (strtonum optarg 2 8).2.isSome then
      .exit EXIT_FAILURE .sayInvalidRetina
        { s with options := { s.options with retinaScaleFactor := (strtonum optarg 2 8).1 } }
    else .next
      { s with options := { s.options with retinaScaleFactor := (strtonum optarg 2 8).1 } }
  else if flag = 's' then .next { s with justDisplaySAUCE := true }
  else if flag = 'v' then .exit EXIT_SUCCESS .versionInfo s
  else .next s := rfl

/-- The options after which the loop goes on, each with what it does to the
locals. -/
theorem optionCase_next {s m : Locals} {flag : Char} {optarg : CStr}
    (h : optionCase s flag optarg = .next m) :
    (flag = 'b' ∧ (strtonum optarg 8 9).2 = none ∧
        m = { s with options := { s.options with bits := (strtonum optarg 8 9).1 } }) ∨
      (flag = 'c' ∧ (strtonum optarg 1 8192).2 = none ∧
        m = { s with options := { s.options with columns := (strtonum optarg 1 8192).1 } }) ∨
      (flag = 'f' ∧ m = { s with options := { s.options with font := some optarg } }) ∨
      (flag = 'i' ∧ m = { s with options := { s.options with icecolors := true } }) ∨
      (flag = 'm' ∧ m = { s with options := { s.options with mode := some optarg } }) ∨
      (flag = 'o' ∧ m = { s with output := some optarg }) ∨
      (flag = 'r' ∧ m = { s with options := { s.options with retinaScaleFactor := 2 } }) ∨
      (flag = 'R' ∧ (strtonum optarg 2 8).2 = none ∧
        m = { s with options :=
          { s.options with retinaScaleFactor := (strtonum optarg 2 8).1 } }) ∨
      (flag = 's' ∧ m = { s with justDisplaySAUCE := true }) ∨
      (flag ≠ 'b' ∧ flag ≠ 'c' ∧ flag ≠ 'o' ∧ flag ≠ 'r' ∧ flag ≠ 'R' ∧ flag ≠ 's' ∧ m = s) := by
  rw [optionCase_eq] at h
  by_cases hb : flag = 'b'
  · rw [if_pos hb] at h
    split at h
    · cases h
    · rename_i hn
      cases h
      exact Or.inl ⟨hb, by simpa using hn, rfl⟩
  rw [if_neg hb] at h
  by_cases hc : flag = 'c'
  · rw [if_pos hc] at h
    split at h
    · cases h
    · rename_i hn
      cases h
      exact Or.inr (Or.inl ⟨hc, by simpa using hn, rfl⟩)
  rw [if_neg hc] at h
  by_cases he : flag = 'e'
  · rw [if_pos he] at h; cases h
  rw [if_neg he] at h
  by_cases hf : flag = 'f'
  · rw [if_pos hf] at h; cases h
    exact Or.inr (Or.inr (Or.inl ⟨hf, rfl⟩))
  rw [if_neg hf] at h
  by_cases hh : flag = 'h'
  · rw [if_pos hh] at h; cases h
  rw [if_neg hh] at h
  by_cases hi : flag = 'i'
  · rw [if_pos hi] at h; cases h
    exact Or.inr (Or.inr (Or.inr (Or.inl ⟨hi, rfl⟩)))
  rw [if_neg hi] at h
  by_cases hm : flag = 'm'
  · rw [if_pos hm] at h; cases h
    exact Or.inr (Or.inr (Or.inr (Or.inr (Or.inl ⟨hm, rfl⟩))))
  rw [if_neg hm] at h
  by_cases ho : flag = 'o'
  · rw [if_pos ho] at h; cases h
    exact Or.inr (Or.inr (Or.inr (Or.inr (Or.inr (Or.inl ⟨ho, rfl⟩)))))
  rw [if_neg ho] at h
  by_cases hr : flag = 'r'
  · rw [if_pos hr] at h; cases h
    exact Or.inr (Or.inr (Or.inr (Or.inr (Or.inr (Or.inr (Or.inl ⟨hr, rfl⟩))))))
  rw [if_neg hr] at h
  by_cases hR : flag = 'R'
  · rw [if_pos hR] at h
    split at h
    · cases h
    · rename_i hn
      cases h
      exact Or.inr (Or.inr (Or.inr (Or.inr (Or.inr (Or.inr (Or.inr
        (Or.inl ⟨hR, by simpa using hn, rfl⟩)))))))
  rw [if_neg hR] at h
  by_cases hs : flag = 's'
  · rw [if_pos hs] at h; cases h
    exact Or.inr (Or.inr (Or.inr (Or.inr (Or.inr (Or.inr (Or.inr (Or.inr
      (Or.inl ⟨hs, rfl⟩))))))))
  rw [if_neg hs] at h
  by_cases hv : flag = 'v'
  · rw [if_pos hv] at h; cases h
  rw [if_neg hv] at h
  cases h
  exact Or.inr (Or.inr (Or.inr (Or.inr (Or.inr (Or.inr (Or.inr (Or.inr
    (Or.inr ⟨hb, hc, ho, hr, hR, hs, rfl⟩))))))))

theorem optionCase_output {s m : Locals} {flag : Char} {optarg : CStr}
    (hf : flag ≠ 'o') (h : optionCase s flag optarg = .next m) : m.output = s.output := by
  rcases optionCase_next h with ⟨_, _, e⟩ | ⟨_, _, e⟩ | ⟨_, e⟩ | ⟨_, e⟩ | ⟨_, e⟩ | ⟨ho, _⟩ |
    ⟨_, e⟩ | ⟨_, _, e⟩ | ⟨_, e⟩ | ⟨_, _, _, _, _, _, e⟩
  all_goals first | (exact absurd ho hf) | (subst e; rfl)

theorem optionCase_scale {s m : Locals} {flag : Char} {optarg : CStr}
    (hr : flag ≠ 'r') (hR : flag ≠ 'R') (h : optionCase s flag optarg = .next m) :
    m.options.retinaScaleFactor = s.options.retinaScaleFactor := by
  rcases optionCase_next h with ⟨_, _, e⟩ | ⟨_, _, e⟩ | ⟨_, e⟩ | ⟨_, e⟩ | ⟨_, e⟩ | ⟨_, e⟩ |
    ⟨h1, _⟩ | ⟨h2, _, _⟩ | ⟨_, e⟩ | ⟨_, _, _, _, _, _, e⟩
  all_goals first | (exact absurd h1 hr) | (exact absurd h2 hR) | (subst e; rfl)

theorem optionCase_paths_diz {s m : Locals} {flag : Char} {optarg : CStr}
    (h : optionCase s flag optarg = .next m) :
    m.options.fileName = s.options.fileName ∧ m.options.retina = s.options.retina ∧
      m.options.diz = s.options.diz := by
  rcases optionCase_next h with ⟨_, _, e⟩ | ⟨_, _, e⟩ | ⟨_, e⟩ | ⟨_, e⟩ | ⟨_, e⟩ | ⟨_, e⟩ |
    ⟨_, e⟩ | ⟨_, _, e⟩ | ⟨_, e⟩ | ⟨_, _, _, _, _, _, e⟩
  all_goals (subst e; exact ⟨rfl, rfl, rfl⟩)

theorem optionCase_display {s m : Locals} {flag : Char} {optarg : CStr}
    (h : optionCase s flag optarg = .next m) :
    m.justDisplaySAUCE = (s.justDisplaySAUCE || decide (flag = 's')) := by
  rcases optionCase_next h with ⟨f, _, e⟩ | ⟨f, _, e⟩ | ⟨f, e⟩ | ⟨f, e⟩ | ⟨f, e⟩ | ⟨f, e⟩ |
    ⟨f, e⟩ | ⟨f, _, e⟩ | ⟨f, e⟩ | ⟨_, _, _, _, _, f, e⟩
  all_goals (subst e; simp [f])

theorem optionLoop_output {s t : Locals} {opts : List (Char × CStr)}
    (habs : Absent 'o' opts) (h : optionLoop s opts = .next t) : t.output = s.output :=
  optionLoop_frame (fun x => x.output = s.output) ['o']
    (fun _ _ _ _ hf hc hp => (optionCase_output (by simpa using hf) hc).trans hp)
    (fun p hp => by simpa using habs p hp) h rfl

theorem optionLoop_scale {s t : Locals} {opts : List (Char × CStr)}
    (hr : Absent 'r' opts) (hR : Absent 'R' opts) (h : optionLoop s opts = .next t) :
    t.options.retinaScaleFactor = s.options.retinaScaleFactor :=
  optionLoop_frame (fun x => x.options.retinaScaleFactor = s.options.retinaScaleFactor)
    ['r', 'R']
    (fun _ _ _ _ hf hc hp =>
      (optionCase_scale (fun e => hf (by simp [e])) (fun e => hf (by simp [e])) hc).trans hp)
    (fun p hp => by simpa using ⟨hr p hp, hR p hp⟩) h rfl

theorem optionLoop_paths_diz {s t : Locals} {opts : List (Char × CStr)}
    (h : optionLoop s opts = .next t) :
    t.options.fileName = s.options.fileName ∧ t.options.retina = s.options.retina ∧
      t.options.diz = s.options.diz :=
  optionLoop_frame (fun x => x.options.fileName = s.options.fileName ∧
      x.options.retina = s.options.retina ∧ x.options.diz = s.options.diz) []
    (fun _ _ _ _ _ hc hp => by
      obtain ⟨h1, h2, h3⟩ := optionCase_paths_diz hc
      exact ⟨h1.trans hp.1, h2.trans hp.2.1, h3.trans hp.2.2⟩)
    (fun _ _ => by simp) h ⟨rfl, rfl, rfl⟩

theorem optionLoop_display {s t : Locals} {opts : List (Char × CStr)}
    (h : optionLoop s opts = .next t) :
    t.justDisplaySAUCE = (s.justDisplaySAUCE || opts.any (fun p => decide (p.1 = 's'))) := by
  induction opts generalizing s with
  | nil => simp only [optionLoop] at h; cases h; simp
  | cons x xs ih =>
    obtain ⟨flag, optarg⟩ := x
    obtain ⟨m, hm, hrest⟩ := optionLoop_cons h
    rw [ih hrest, optionCase_display hm]
    simp [Bool.or_assoc]

/-! ## Runs that reach the render block -/

theorem Converts.prepares {env : Env} {opts : List (Char × CStr)} {operands : List CStr}
    {s : Locals} {input : CStr} {record : sauce} {S : Nat}
    (h : Converts env opts operands s input record S) :
    Prepares env opts operands s input record :=
  ⟨h.pledge, h.loop, h.render, h.operand, h.probe⟩

theorem Prepares.converts {env : Env} {opts : List (Char × CStr)} {operands : List CStr}
    {s : Locals} {input : CStr} {record : sauce} {S : Nat}
    (h : Prepares env opts operands s input record) (h1 : env.openOk input = true)
    (h2 : env.stSize = some S) (h3 : env.mmapOk = true) :
    Converts env opts operands s input record S :=
  ⟨h.pledge, h.loop, h.render, h.operand, h.probe, h1, h2, h3⟩

theorem prepares_sample (t : LengthType) (record : sauce) (S : Nat) (input : CStr) :
    Prepares (sampleEnv t record S) [] [input] (start (sampleEnv t record S)) input record :=
  ⟨rfl, rfl, rfl, rfl, rfl⟩

theorem main_prepares_options {env : Env} {opts : List (Char × CStr)} {operands : List CStr}
    {s : Locals} {input : CStr} {record : sauce}
    (h : Prepares env opts operands s input record) :
    (main env opts operands).options = preparedOptions input s.output s.options := by
  obtain ⟨hp, hl, hr, ho, hpr⟩ := h
  cases operands with
  | nil => simp at ho
  | cons i rest =>
    simp only [List.head?_cons, Option.some.injEq] at ho
    subst ho
    unfold main
    simp only [hp, hl, hpr, hr, renderBlock]
    cases env.openOk i <;> cases env.stSize <;> cases env.mmapOk <;> simp [preparedOptions]

theorem applyDefaults_fields (o : ansilove_options) :
    (applyDefaults o).fileName = o.fileName ∧ (applyDefaults o).retina = o.retina ∧
      (applyDefaults o).diz = o.diz := by
  obtain ⟨fileName, retina, font, mode, bits, columns, diz, icecolors, factor⟩ := o
  cases font <;> cases mode <;> exact ⟨rfl, rfl, rfl⟩

theorem outputNames_fileName (input : CStr) (output : Option CStr) (o : ansilove_options) :
    (outputNames input output o).fileName =
      some (match output with
        | none => input ++ ['.', 'p', 'n', 'g']
        | some outputName => outputName) := by
  unfold outputNames
  cases output <;> simp only <;> split <;> rfl

theorem outputNames_diz (input : CStr) (output : Option CStr) (o : ansilove_options) :
    (outputNames input output o).diz = o.diz := by
  unfold outputNames
  cases output <;> simp only <;> split <;> rfl

theorem preparedOptions_fileName (input : CStr) (output : Option CStr) (o : ansilove_options) :
    (preparedOptions input output o).fileName =
      some (match output with
        | none => input ++ ['.', 'p', 'n', 'g']
        | some outputName => outputName) := by
  unfold preparedOptions
  rw [markDiz_fileName, (applyDefaults_fields _).1, outputNames_fileName]

theorem preparedOptions_diz (input : CStr) (output : Option CStr) (o : ansilove_options) :
    (preparedOptions input output o).diz =
      if fileExtension input = ['.', 'd', 'i', 'z'] then true else o.diz := by
  unfold preparedOptions markDiz
  split
  · rfl
  · rw [(applyDefaults_fields _).2.2, outputNames_diz]

/-! ## The extension of a path -/

theorem strrchr_none {s : CStr} {c : Char} (h : c ∉ s) : strrchr s c = none := by
  induction s with
  | nil => rfl
  | cons x xs ih =>
    simp only [List.mem_cons, not_or] at h
    simp only [strrchr, ih h.2]
    rw [if_neg (fun e => h.1 e.symm)]

theorem strrchr_last (stem ext : CStr) (c : Char) (h : c ∉ ext) :
    strrchr (stem ++ c :: ext) c = some (c :: ext) := by
  induction stem with
  | nil => simp [strrchr, strrchr_none h]
  | cons x xs ih =>
    show strrchr (x :: (xs ++ c :: ext)) c = some (c :: ext)
    rw [strrchr, ih]

theorem not_mem_of_strrchr_none {s : CStr} {c : Char} (h : strrchr s c = none) : c ∉ s := by
  induction s with
  | nil => simp
  | cons x xs ih =>
    simp only [strrchr] at h
    cases hx : strrchr xs c with
    | some r => rw [hx] at h; cases h
    | none =>
      rw [hx] at h
      simp only at h
      split at h
      · cases h
      · rename_i hxc
        simp only [List.mem_cons, not_or]
        exact ⟨fun e => hxc e.symm, ih hx⟩

theorem strrchr_some {s r : CStr} {c : Char} (h : strrchr s c = some r) :
    ∃ stem ext, s = stem ++ c :: ext ∧ c ∉ ext ∧ r = c :: ext := by
  induction s generalizing r with
  | nil => simp [strrchr] at h
  | cons x xs ih =>
    simp only [strrchr] at h
    cases hx : strrchr xs c with
    | some r1 =>
      rw [hx] at h
      simp only [Option.some.injEq] at h
      obtain ⟨stem, ext, e1, e2, e3⟩ := ih hx
      exact ⟨x :: stem, ext, by rw [e1]; rfl, e2, by rw [← h, e3]⟩
    | none =>
      rw [hx] at h
      simp only at h
      split at h
      · rename_i hxc
        simp only [Option.some.injEq] at h
        exact ⟨[], xs, by simp [hxc], not_mem_of_strrchr_none hx, by rw [← h, hxc]⟩
      · cases h

theorem tolower_dot : tolower '.' = '.' := by decide

theorem fileExtension_no_dot {input : CStr} (h : '.' ∉ input) : fileExtension input = [] := by
  simp only [fileExtension, strrchr_none h]

theorem fileExtension_last (stem ext : CStr) (h : '.' ∉ ext) :
    fileExtension (stem ++ '.' :: ext) = '.' :: strtolower ext := by
  simp only [fileExtension, strrchr_last stem ext '.' h, strtolower, List.map_cons, tolower_dot]

/-- The lower-cased extension is `fext` (which starts with a dot) exactly
when the path ends in a dot followed by a dot-free `ext` whose lower-case
form is the rest of `fext`. -/
theorem fileExtension_eq_iff (input e : CStr) :
    fileExtension input = '.' :: e ↔
      ∃ stem ext, input = stem ++ '.' :: ext ∧ '.' ∉ ext ∧ strtolower ext = e := by
  constructor
  · intro h
    unfold fileExtension at h
    cases hx : strrchr input '.' with
    | none => rw [hx] at h; cases h
    | some r =>
      rw [hx] at h
      obtain ⟨stem, ext, e1, e2, e3⟩ := strrchr_some hx
      subst e3
      simp only [strtolower, List.map_cons, tolower_dot, List.cons.injEq, true_and] at h
      exact ⟨stem, ext, e1, e2, h⟩
  · rintro ⟨stem, ext, e1, e2, e3⟩
    rw [e1, fileExtension_last stem ext e2, e3]

/-! ## Format dispatch (C5, C10) -/

/-- C5: in every conversion `main` calls exactly one renderer. A path without
a dot goes to the ANSI renderer. For a path `stem.ext` (`ext` free of dots)
the renderer follows the lower-cased `ext`: pcb -> PCBoard, bin -> Binary,
adf -> Artworx, idf -> IceDraw, tnd -> Tundra, xb -> XBin, anything else ->
ANSI. -/
theorem C5_format_dispatch {env : Env} {opts : List (Char × CStr)} {operands : List CStr}
    {s : Locals} {input : CStr} {record : sauce} {S : Nat}
    (h : Converts env opts operands s input record S) :
    ∃ r, rendererCalls (main env opts operands).effects = [r] ∧
      ('.' ∉ input → r = .ansi) ∧
      (∀ stem ext, input = stem ++ '.' :: ext → '.' ∉ ext →
        (strtolower ext = ['p', 'c', 'b'] → r = .pcboard) ∧
        (strtolower ext = ['b', 'i', 'n'] → r = .binary) ∧
        (strtolower ext = ['a', 'd', 'f'] → r = .artworx) ∧
        (strtolower ext = ['i', 'd', 'f'] → r = .icedraw) ∧
        (strtolower ext = ['t', 'n', 'd'] → r = .tundra) ∧
        (strtolower ext = ['x', 'b'] → r = .xbin) ∧
        (strtolower ext ∉ [['p', 'c', 'b'], ['b', 'i', 'n'], ['a', 'd', 'f'], ['i', 'd', 'f'],
            ['t', 'n', 'd'], ['x', 'b']] → r = .ansi)) := by
  refine ⟨selectRenderer (fileExtension input), rendererCalls_main h, ?_, ?_⟩
  · intro hd
    rw [fileExtension_no_dot hd]
    rfl
  · intro stem ext e hd
    rw [e, fileExtension_last stem ext hd]
    refine ⟨?_, ?_, ?_, ?_, ?_, ?_, ?_⟩
    · intro hx; rw [hx]; rfl
    · intro hx; rw [hx]; rfl
    · intro hx; rw [hx]; rfl
    · intro hx; rw [hx]; rfl
    · intro hx; rw [hx]; rfl
    · intro hx; rw [hx]; rfl
    · intro hx
      simp only [List.mem_cons, List.mem_singleton, List.not_mem_nil, or_false, not_or] at hx
      obtain ⟨h1, h2, h3, h4, h5, h6⟩ := hx
      simp only [selectRenderer, List.cons.injEq, true_and, h1, h2, h3, h4, h5, h6, if_false]

/-- C5 (witness): `demo.BiN` is rendered by the Binary renderer. -/
theorem C5_format_dispatch_witness :
    rendererCalls (main (sampleEnv size_t blankRecord 4000) [] [demoBin]).effects =
      [Renderer.binary] := by
  obtain ⟨r, hr, _, htab⟩ := C5_format_dispatch
    (show Converts (sampleEnv size_t blankRecord 4000) [] [demoBin]
      (start (sampleEnv size_t blankRecord 4000)) demoBin blankRecord 4000 from
      ⟨rfl, rfl, rfl, rfl, rfl, rfl, rfl, rfl⟩)
  have e := (htab ['d', 'e', 'm', 'o'] ['B', 'i', 'N'] rfl (by decide)).2.1 (by decide)
  rw [hr, e]

/-- C10: in a run that reaches the render block, `options.diz` ends up true
when the path is `stem.ext` with `ext` free of dots and lower-cased `ext`
equal to `diz`, and keeps the value `ansilove_init` gave it otherwise; a
`.diz` input that is opened, stat-ed and mapped is rendered by the ANSI
renderer. -/
theorem C10_diz_flag {env : Env} {opts : List (Char × CStr)} {operands : List CStr}
    {s : Locals} {input : CStr} {record : sauce}
    (h : Prepares env opts operands s input record) :
    ((∃ stem ext, input = stem ++ '.' :: ext ∧ '.' ∉ ext ∧ strtolower ext = ['d', 'i', 'z']) →
        (main env opts operands).options.diz = true ∧
        (∀ S, env.openOk input = true → env.stSize = some S → env.mmapOk = true →
          rendererCalls (main env opts operands).effects = [.ansi])) ∧
      ((¬ ∃ stem ext, input = stem ++ '.' :: ext ∧ '.' ∉ ext ∧
          strtolower ext = ['d', 'i', 'z']) →
        (main env opts operands).options.diz = env.init.diz) := by
  rw [main_prepares_options h, preparedOptions_diz, ← fileExtension_eq_iff]
  constructor
  · intro hx
    refine ⟨by rw [if_pos hx], ?_⟩
    intro S h1 h2 h3
    rw [rendererCalls_main (h.converts h1 h2 h3), hx]
    rfl
  · intro hx
    rw [if_neg hx]
    exact (optionLoop_paths_diz h.loop).2.2

/-- C10 (witness): `FILE_ID.DIZ` sets the flag and goes to the ANSI renderer;
`art.ans` leaves the flag as initialised. -/
theorem C10_diz_flag_witness :
    (main (sampleEnv size_t blankRecord 400) [] [fileIdDiz]).options.diz = true ∧
      rendererCalls (main (sampleEnv size_t blankRecord 400) [] [fileIdDiz]).effects =
        [Renderer.ansi] ∧
      (main (sampleEnv size_t blankRecord 400) [] [artAns]).options.diz =
        (sampleEnv size_t blankRecord 400).init.diz := by
  have h1 := (C10_diz_flag (prepares_sample size_t blankRecord 400 fileIdDiz)).1
    ⟨['F', 'I', 'L', 'E', '_', 'I', 'D'], ['D', 'I', 'Z'], rfl, by decide, by decide⟩
  have h2 := (C10_diz_flag (prepares_sample size_t blankRecord 400 artAns)).2 (by
    rw [← fileExtension_eq_iff]
    decide)
  exact ⟨h1.1, h1.2 400 rfl rfl rfl, h2⟩

/-! ## Output paths (C6) -/

/-- C6: in a run that reaches the render block, `options.fileName` is the
input path followed by `.png` when `getopt` returns no `-o`, and is exactly
the argument of the last `-o` otherwise. -/
theorem C6_primary_output_path {env : Env} {opts : List (Char × CStr)}
    {operands : List CStr} {s : Locals} {input : CStr} {record : sauce}
    (h : Prepares env opts operands s input record) :
    (Absent 'o' opts →
        (main env opts operands).options.fileName = some (input ++ ['.', 'p', 'n', 'g'])) ∧
      (∀ pre q post, opts = pre ++ ('o', q) :: post → Absent 'o' post →
        (main env opts operands).options.fileName = some q) := by
  rw [main_prepares_options h, preparedOptions_fileName]
  constructor
  · intro habs
    have e : s.output = none := optionLoop_output habs h.loop
    rw [e]
  · intro pre q post e habs
    have hl := h.loop
    rw [e] at hl
    obtain ⟨m, _, h2⟩ := optionLoop_split hl
    obtain ⟨m2, h3, h4⟩ := optionLoop_cons h2
    have e2 : s.output = m2.output := optionLoop_output habs h4
    rcases optionCase_next h3 with ⟨f, _⟩ | ⟨f, _⟩ | ⟨f, _⟩ | ⟨f, _⟩ | ⟨f, _⟩ | ⟨_, e3⟩ |
      ⟨f, _⟩ | ⟨f, _⟩ | ⟨f, _⟩ | ⟨_, _, f, _⟩
    all_goals first | (exact absurd f (by decide)) | skip
    rw [e2, e3]

/-- C6 (witness): `art.ans` without `-o` gives `art.ans.png`; with
`-o out/final.png` it gives `out/final.png`. -/
theorem C6_primary_output_path_witness :
    (main (sampleEnv size_t blankRecord 400) [] [artAns]).options.fileName =
        some (artAns ++ ['.', 'p', 'n', 'g']) ∧
      (main (sampleEnv size_t blankRecord 400) [('o', outFinalPng)] [artAns]).options.fileName =
        some outFinalPng :=
  ⟨(C6_primary_output_path (prepares_sample size_t blankRecord 400 artAns)).1 (by decide),
    (C6_primary_output_path
      (show Prepares (sampleEnv size_t blankRecord 400) [('o', outFinalPng)] [artAns]
        { start (sampleEnv size_t blankRecord 400) with output := some outFinalPng } artAns
        blankRecord from ⟨rfl, rfl, rfl, rfl, rfl⟩)).2 [] outFinalPng [] rfl (by decide)⟩

/-! ## Decimal arguments (`strtonum`) -/

theorem scanDigits_eq (s : CStr) (acc : Nat) :
    scanDigits acc s =
      ((s.takeWhile isdigit).foldl (fun acc c => acc * 10 + (c.toNat - 48)) acc,
        s.dropWhile isdigit) := by
  induction s generalizing acc with
  | nil => rfl
  | cons c cs ih =>
    by_cases hc : isdigit c = true
    · simp only [scanDigits, hc, if_true, List.takeWhile_cons_of_pos, List.dropWhile_cons_of_pos,
        List.foldl_cons, ih]
    · have hc2 : isdigit c = false := by simpa using hc
      simp [scanDigits, hc2, List.takeWhile_cons, List.dropWhile_cons]

theorem scanDigits_digits {ds : CStr} (h : ∀ c ∈ ds, isdigit c = true) :
    scanDigits 0 ds = (decimalValue ds, []) := by
  rw [scanDigits_eq]
  have e1 : ds.takeWhile isdigit = ds := List.takeWhile_eq_self_iff.mpr h
  have e2 : ds.dropWhile isdigit = [] := List.dropWhile_eq_nil_iff.mpr h
  rw [e1, e2]
  rfl

theorem dropWhile_spaces (ws rest : CStr) (hws : ∀ c ∈ ws, isspace c = true)
    (hrest : ∀ c, rest.head? = some c → isspace c = false) :
    (ws ++ rest).dropWhile isspace = rest := by
  induction ws with
  | nil =>
    cases rest with
    | nil => rfl
    | cons c cs =>
      have := hrest c rfl
      simp [List.dropWhile_cons, this]
  | cons w ws ih =>
    have hw := hws w (List.mem_cons_self _ _)
    simp only [List.cons_append, List.dropWhile_cons, hw, if_true]
    exact ih (fun c hc => hws c (List.mem_cons_of_mem _ hc))

theorem isspace_of_isdigit {c : Char} (h : isdigit c = true) : isspace c = false := by
  simp only [isdigit, Bool.and_eq_true, decide_eq_true_eq] at h
  simp only [isspace, Bool.or_eq_false_iff, decide_eq_false_iff_not, Bool.and_eq_false_iff]
  omega

/-- The value `strtoll` converts, before saturation. -/
theorem strtoll_parts (ws sign ds : CStr) (hws : ∀ c ∈ ws, isspace c = true)
    (hne : ds ≠ []) (hds : ∀ c ∈ ds, isdigit c = true)
    (hsign : sign = [] ∨ sign = ['+'] ∨ sign = ['-']) (v : Int)
    (hv : v = if sign = ['-'] then -(decimalValue ds : Int) else (decimalValue ds : Int)) :
    strtoll (ws ++ sign ++ ds) =
      if v < LLONG_MIN then ⟨LLONG_MIN, true, [], true⟩
      else if LLONG_MAX < v then ⟨LLONG_MAX, true, [], true⟩
      else ⟨v, true, [], false⟩ := by
  obtain ⟨d, ds1, rfl⟩ := List.exists_cons_of_ne_nil hne
  have hd : isdigit d = true := hds d (List.mem_cons_self _ _)
  have hdm : d ≠ '-' := by rintro rfl; exact absurd hd (by decide)
  have hdp : d ≠ '+' := by rintro rfl; exact absurd hd (by decide)
  have hdrop : (ws ++ sign ++ d :: ds1).dropWhile isspace = sign ++ d :: ds1 := by
    rw [List.append_assoc]
    apply dropWhile_spaces _ _ hws
    intro c hc
    rcases hsign with rfl | rfl | rfl
    · simp only [List.nil_append, List.head?_cons, Option.some.injEq] at hc
      subst hc
      exact isspace_of_isdigit hd
    · simp only [List.singleton_append, List.head?_cons, Option.some.injEq] at hc
      subst hc
      decide
    · simp only [List.singleton_append, List.head?_cons, Option.some.injEq] at hc
      subst hc
      decide
  unfold strtoll
  simp only [hdrop]
  rcases hsign with rfl | rfl | rfl
  · simp only [List.nil_append, List.head?_cons, Option.some.injEq, hdm, hdp, or_self,
      if_false, hd, if_true, scanDigits_digits hds] at hv ⊢
    simp only [List.cons_ne_nil, if_false, List.cons.injEq, reduceCtorEq] at hv
    subst hv
    simp
  · have pm : ¬ (('+' : Char) = '-') := by decide
    simp only [List.singleton_append, List.head?_cons, Option.some.injEq, List.tail_cons,
      List.cons.injEq, pm, false_and, false_or, or_true, if_true, if_false, hd,
      scanDigits_digits hds] at hv ⊢
    subst hv
    rfl
  · simp only [List.singleton_append, List.head?_cons, Option.some.injEq, List.tail_cons,
      List.cons.injEq, true_and, and_true, true_or, if_true, hd,
      scanDigits_digits hds] at hv ⊢
    subst hv
    rfl

theorem strtonum_parts (ws sign ds : CStr) (hws : ∀ c ∈ ws, isspace c = true)
    (hne : ds ≠ []) (hds : ∀ c ∈ ds, isdigit c = true)
    (hsign : sign = [] ∨ sign = ['+'] ∨ sign = ['-']) (v : Int)
    (hv : v = if sign = ['-'] then -(decimalValue ds : Int) else (decimalValue ds : Int))
    (lo hi : Int) (hlo : LLONG_MIN ≤ lo) (hlh : lo ≤ hi) (hhi : hi ≤ LLONG_MAX) :
    strtonum (ws ++ sign ++ ds) lo hi =
      if v < lo then (0, some .tooSmall) else if hi < v then (0, some .tooLarge)
      else (v, none) := by
  unfold strtonum
  rw [if_neg (by omega), strtoll_parts ws sign ds hws hne hds hsign v hv]
  by_cases h1 : v < LLONG_MIN
  · have h2 : v < lo := by omega
    simp [h1, h2]
  · by_cases h3 : LLONG_MAX < v
    · have h4 : hi < v := by omega
      have h5 : ¬ v < lo := by omega
      have h6 : ¬ LLONG_MAX < lo := by omega
      have h7 : ¬ LLONG_MAX = LLONG_MIN := by decide
      simp [h1, h3, h4, h5, h6, h7]
    · simp [h1, h3]

theorem denotes_parts {a : CStr} {n : Int} (h : Denotes a n) :
    ∃ ws sign ds : CStr, a = ws ++ sign ++ ds ∧ (∀ c ∈ ws, isspace c = true) ∧ ds ≠ [] ∧
      (∀ c ∈ ds, isdigit c = true) ∧ (sign = [] ∨ sign = ['+'] ∨ sign = ['-']) ∧
      n = if sign = ['-'] then -(decimalValue ds : Int) else (decimalValue ds : Int) := by
  obtain ⟨ws, sign, ds, e, h1, h2, h3, h4⟩ := h
  refine ⟨ws, sign, ds, e, h1, h2, h3, ?_, ?_⟩
  · rcases h4 with ⟨h5 | h5, _⟩ | ⟨h5, _⟩
    · exact Or.inl h5
    · exact Or.inr (Or.inl h5)
    · exact Or.inr (Or.inr h5)
  · rcases h4 with ⟨h5 | h5, h6⟩ | ⟨h5, h6⟩
    · rw [h6, h5]; rfl
    · rw [h6, h5]; rfl
    · rw [h6, h5]; rfl

/-- An argument that denotes an integer inside the bounds is accepted with
that integer. -/
theorem strtonum_of_denotes {a : CStr} {n lo hi : Int} (h : Denotes a n)
    (hlo : LLONG_MIN ≤ lo) (h1 : lo ≤ n) (h2 : n ≤ hi) (hhi : hi ≤ LLONG_MAX) :
    strtonum a lo hi = (n, none) := by
  obtain ⟨ws, sign, ds, e, hws, hne, hds, hsign, hv⟩ := denotes_parts h
  rw [e, strtonum_parts ws sign ds hws hne hds hsign n hv lo hi hlo (by omega) hhi,
    if_neg (by omega), if_neg (by omega)]

theorem saturate_fields (v : Int) (r : CStr) :
    (if v < LLONG_MIN then (⟨LLONG_MIN, true, r, true⟩ : StrtollResult)
      else if LLONG_MAX < v then ⟨LLONG_MAX, true, r, true⟩
      else ⟨v, true, r, false⟩).rest = r := by
  split
  · rfl
  · split <;> rfl

theorem strtoll_digits_rest {s2 : CStr} (h : (scanDigits 0 s2).2 = []) :
    ∀ c ∈ s2, isdigit c = true := by
  rw [scanDigits_eq] at h
  exact List.dropWhile_eq_nil_iff.mp h

/-- When `strtoll` converts the whole string, the string is white space, an
optional sign and digits. -/
theorem strtoll_whole {a : CStr} (hc : (strtoll a).converted = true)
    (hr : (strtoll a).rest = []) :
    ∃ ws sign ds : CStr, a = ws ++ sign ++ ds ∧ (∀ c ∈ ws, isspace c = true) ∧ ds ≠ [] ∧
      (∀ c ∈ ds, isdigit c = true) ∧ (sign = [] ∨ sign = ['+'] ∨ sign = ['-']) := by
  have ha : a = a.takeWhile isspace ++ a.dropWhile isspace :=
    (List.takeWhile_append_dropWhile isspace a).symm
  have hws : ∀ c ∈ a.takeWhile isspace, isspace c = true :=
    fun c hc => List.mem_takeWhile_imp hc
  have key : ∀ (sign s2 : CStr), a.dropWhile isspace = sign ++ s2 →
      (sign = [] ∨ sign = ['+'] ∨ sign = ['-']) →
      (match s2 with
        | [] => (⟨0, false, a, false⟩ : StrtollResult)
        | c :: _ =>
          if isdigit c then
            (if (if sign = ['-'] then -((scanDigits 0 s2).1 : Int) else ((scanDigits 0 s2).1 : Int))
                < LLONG_MIN then ⟨LLONG_MIN, true, (scanDigits 0 s2).2, true⟩
            else if LLONG_MAX <
                (if sign = ['-'] then -((scanDigits 0 s2).1 : Int) else ((scanDigits 0 s2).1 : Int))
              then ⟨LLONG_MAX, true, (scanDigits 0 s2).2, true⟩
            else ⟨(if sign = ['-'] then -((scanDigits 0 s2).1 : Int)
              else ((scanDigits 0 s2).1 : Int)), true, (scanDigits 0 s2).2, false⟩)
          else ⟨0, false, a, false⟩) = strtoll a →
      ∃ ws sign ds : CStr, a = ws ++ sign ++ ds ∧ (∀ c ∈ ws, isspace c = true) ∧ ds ≠ [] ∧
        (∀ c ∈ ds, isdigit c = true) ∧ (sign = [] ∨ sign = ['+'] ∨ sign = ['-']) := by
    intro sign s2 hs1 hsign he
    rw [← he] at hc hr
    cases s2 with
    | nil => simp at hc
    | cons c tl =>
      by_cases hd : isdigit c = true
      · simp only [hd, if_true] at hr
        rw [saturate_fields] at hr
        refine ⟨a.takeWhile isspace, sign, c :: tl, ?_, hws, by simp, strtoll_digits_rest hr,
          hsign⟩
        rw [List.append_assoc, ← hs1]
        exact ha
      · simp [hd] at hc
  cases hs1 : a.dropWhile isspace with
  | nil =>
    apply key [] [] (by rw [hs1]; rfl) (Or.inl rfl)
    unfold strtoll
    simp [hs1]
  | cons c tl =>
    by_cases hm : c = '-'
    · subst hm
      apply key ['-'] tl (by rw [hs1]; rfl) (Or.inr (Or.inr rfl))
      unfold strtoll
      simp [hs1]
      cases tl <;> rfl
    · by_cases hp : c = '+'
      · subst hp
        apply key ['+'] tl (by rw [hs1]; rfl) (Or.inr (Or.inl rfl))
        unfold strtoll
        simp [hs1, hm]
        cases tl <;> rfl
      · apply key [] (c :: tl) (by rw [hs1]; rfl) (Or.inl rfl)
        unfold strtoll
        simp [hs1, hm, hp]

/-- An accepted argument denotes the integer returned, which lies inside the
bounds. -/
theorem denotes_of_strtonum {a : CStr} {lo hi : Int} (hlo : LLONG_MIN ≤ lo)
    (hhi : hi ≤ LLONG_MAX) (h : (strtonum a lo hi).2 = none) :
    Denotes a (strtonum a lo hi).1 ∧ lo ≤ (strtonum a lo hi).1 ∧ (strtonum a lo hi).1 ≤ hi := by
  have hlh : ¬ hi < lo := by
    intro hx
    simp [strtonum, hx] at h
  have hc : (strtoll a).converted = true := by
    by_contra hx
    simp [strtonum, hlh, hx] at h
  have hr : (strtoll a).rest = [] := by
    by_contra hx
    simp [strtonum, hlh, hx] at h
  obtain ⟨ws, sign, ds, e, hws, hne, hds, hsign⟩ := strtoll_whole hc hr
  subst e
  obtain ⟨v, hv⟩ : ∃ v : Int,
      v = if sign = ['-'] then -(decimalValue ds : Int) else (decimalValue ds : Int) := ⟨_, rfl⟩
  have hp := strtonum_parts ws sign ds hws hne hds hsign v hv lo hi hlo (by omega) hhi
  rw [hp] at h ⊢
  by_cases h1 : v < lo
  · rw [if_pos h1] at h; cases h
  · rw [if_neg h1] at h ⊢
    by_cases h2 : hi < v
    · rw [if_pos h2] at h; cases h
    · rw [if_neg h2]
      refine ⟨⟨ws, sign, ds, rfl, hws, hne, hds, ?_⟩, by simpa using h1, by simpa using h2⟩
      rcases hsign with rfl | rfl | rfl
      · exact Or.inl ⟨Or.inl rfl, by simpa using hv⟩
      · exact Or.inl ⟨Or.inr rfl, by simpa using hv⟩
      · exact Or.inr ⟨rfl, by simpa using hv⟩

/-! ## Numeric options (C8) -/

theorem main_exit {env : Env} {pre post : List (Char × CStr)} {operands : List CStr}
    {mid s1 : Locals} {flag : Char} {a : CStr} {status : Int} {say : Effect}
    (hp : env.pledgeOk = true) (hpre : optionLoop (start env) pre = .next mid)
    (hcase : optionCase mid flag a = .exit status say s1) :
    main env (pre ++ (flag, a) :: post) operands = ⟨status, [.sayBanner, say], s1.options⟩ := by
  unfold main
  simp only [hp, optionLoop_append, hpre, optionLoop, hcase]
  rfl

theorem optionLoop_next {env : Env} {pre post : List (Char × CStr)} {mid m : Locals}
    {flag : Char} {a : CStr} (hpre : optionLoop (start env) pre = .next mid)
    (hcase : optionCase mid flag a = .next m) :
    optionLoop (start env) (pre ++ (flag, a) :: post) = optionLoop m post := by
  simp only [optionLoop_append, hpre, optionLoop, hcase]

theorem strtonum_rejects {a : CStr} {lo hi : Int} (hlo : LLONG_MIN ≤ lo)
    (hhi : hi ≤ LLONG_MAX) (h : ¬ ∃ n, Denotes a n ∧ lo ≤ n ∧ n ≤ hi) :
    (strtonum a lo hi).2.isSome = true := by
  cases hx : (strtonum a lo hi).2 with
  | some e => rfl
  | none => exact absurd ⟨_, denotes_of_strtonum hlo hhi hx⟩ h

/-- C8: when the option loop reaches `-b`, `-c` or `-R` with the argument `a`
(the options before it having been accepted): if `a` denotes an integer in
8..9, 1..8192 or 2..8 respectively, that integer is stored in `options.bits`,
`options.columns` or `options.retinaScaleFactor` and the loop goes on;
otherwise `main` returns `EXIT_FAILURE` (1) having only printed the banner
and the diagnostic: the input is neither probed for SAUCE, nor opened, nor
rendered. -/
theorem C8_numeric_options {env : Env} {pre : List (Char × CStr)} {mid : Locals}
    (hp : env.pledgeOk = true) (hpre : optionLoop (start env) pre = .next mid) (a : CStr)
    (post : List (Char × CStr)) (operands : List CStr) :
    ((∀ n, Denotes a n → 8 ≤ n → n ≤ 9 →
        optionLoop (start env) (pre ++ ('b', a) :: post) =
          optionLoop { mid with options := { mid.options with bits := n } } post) ∧
      ((¬ ∃ n, Denotes a n ∧ 8 ≤ n ∧ n ≤ 9) →
        (main env (pre ++ ('b', a) :: post) operands).status = EXIT_FAILURE ∧
        (main env (pre ++ ('b', a) :: post) operands).effects =
          [.sayBanner, .sayInvalidBits])) ∧
    ((∀ n, Denotes a n → 1 ≤ n → n ≤ 8192 →
        optionLoop (start env) (pre ++ ('c', a) :: post) =
          optionLoop { mid with options := { mid.options with columns := n } } post) ∧
      ((¬ ∃ n, Denotes a n ∧ 1 ≤ n ∧ n ≤ 8192) →
        (main env (pre ++ ('c', a) :: post) operands).status = EXIT_FAILURE ∧
        (main env (pre ++ ('c', a) :: post) operands).effects =
          [.sayBanner, .sayInvalidColumns])) ∧
    ((∀ n, Denotes a n → 2 ≤ n → n ≤ 8 →
        optionLoop (start env) (pre ++ ('R', a) :: post) =
          optionLoop { mid with options := { mid.options with retinaScaleFactor := n } }
            post) ∧
      ((¬ ∃ n, Denotes a n ∧ 2 ≤ n ∧ n ≤ 8) →
        (main env (pre ++ ('R', a) :: post) operands).status = EXIT_FAILURE ∧
        (main env (pre ++ ('R', a) :: post) operands).effects =
          [.sayBanner, .sayInvalidRetina])) := by
  have hmin : ∀ k : Int, 1 ≤ k → LLONG_MIN ≤ k := by
    intro k hk
    have : LLONG_MIN ≤ 1 := by decide
    omega
  have hmax : ∀ k : Int, k ≤ 8192 → k ≤ LLONG_MAX := by
    intro k hk
    have : (8192 : Int) ≤ LLONG_MAX := by decide
    omega
  refine ⟨⟨?_, ?_⟩, ⟨?_, ?_⟩, ⟨?_, ?_⟩⟩
  · intro n hd h1 h2
    have e := strtonum_of_denotes hd (hmin 8 (by decide)) h1 h2 (hmax 9 (by decide))
    refine optionLoop_next hpre ?_
    rw [optionCase_eq, if_pos rfl, e]
    rfl
  · intro hn
    have e := strtonum_rejects (hmin 8 (by decide)) (hmax 9 (by decide)) hn
    have hc : optionCase mid 'b' a = .exit EXIT_FAILURE .sayInvalidBits
        { mid with options := { mid.options with bits := (strtonum a 8 9).1 } } := by
      rw [optionCase_eq, if_pos rfl, if_pos e]
    rw [main_exit hp hpre hc]
    exact ⟨rfl, rfl⟩
  · intro n hd h1 h2
    have e := strtonum_of_denotes hd (hmin 1 (by decide)) h1 h2 (hmax 8192 (by decide))
    refine optionLoop_next hpre ?_
    rw [optionCase_eq, if_neg (by decide), if_pos rfl, e]
    rfl
  · intro hn
    have e := strtonum_rejects (hmin 1 (by decide)) (hmax 8192 (by decide)) hn
    have hc : optionCase mid 'c' a = .exit EXIT_FAILURE .sayInvalidColumns
        { mid with options := { mid.options with columns := (strtonum a 1 8192).1 } } := by
      rw [optionCase_eq, if_neg (by decide), if_pos rfl, if_pos e]
    rw [main_exit hp hpre hc]
    exact ⟨rfl, rfl⟩
  · intro n hd h1 h2
    have e := strtonum_of_denotes hd (hmin 2 (by decide)) h1 h2 (hmax 8 (by decide))
    refine optionLoop_next hpre ?_
    rw [optionCase_eq]
    simp only [show ¬ ('R' : Char) = 'b' by decide, show ¬ ('R' : Char) = 'c' by decide,
      show ¬ ('R' : Char) = 'e' by decide, show ¬ ('R' : Char) = 'f' by decide,
      show ¬ ('R' : Char) = 'h' by decide, show ¬ ('R' : Char) = 'i' by decide,
      show ¬ ('R' : Char) = 'm' by decide, show ¬ ('R' : Char) = 'o' by decide,
      show ¬ ('R' : Char) = 'r' by decide, if_false, if_true, e]
    rfl
  · intro hn
    have e := strtonum_rejects (hmin 2 (by decide)) (hmax 8 (by decide)) hn
    have hc : optionCase mid 'R' a = .exit EXIT_FAILURE .sayInvalidRetina
        { mid with options :=
          { mid.options with retinaScaleFactor := (strtonum a 2 8).1 } } := by
      rw [optionCase_eq]
      simp only [show ¬ ('R' : Char) = 'b' by decide, show ¬ ('R' : Char) = 'c' by decide,
        show ¬ ('R' : Char) = 'e' by decide, show ¬ ('R' : Char) = 'f' by decide,
        show ¬ ('R' : Char) = 'h' by decide, show ¬ ('R' : Char) = 'i' by decide,
        show ¬ ('R' : Char) = 'm' by decide, show ¬ ('R' : Char) = 'o' by decide,
        show ¬ ('R' : Char) = 'r' by decide, if_false, if_true, e]
    rw [main_exit hp hpre hc]
    exact ⟨rfl, rfl⟩

/-- C8 (witness): `-b 7`, `-b 10`, `-R 1` and `-R 9` make `main` fail before
the input is touched; `-b 8`, `-b 9` and `-R 2` are stored. -/
theorem C8_numeric_options_witness :
    ((main (sampleEnv size_t blankRecord 400) [('b', ['7'])] [artAns]).status = EXIT_FAILURE ∧
      (main (sampleEnv size_t blankRecord 400) [('b', ['7'])] [artAns]).effects =
        [.sayBanner, .sayInvalidBits]) ∧
    ((main (sampleEnv size_t blankRecord 400) [('b', ['1', '0'])] [artAns]).status =
        EXIT_FAILURE ∧
      (main (sampleEnv size_t blankRecord 400) [('b', ['1', '0'])] [artAns]).effects =
        [.sayBanner, .sayInvalidBits]) ∧
    ((main (sampleEnv size_t blankRecord 400) [('R', ['1'])] [artAns]).status = EXIT_FAILURE ∧
      (main (sampleEnv size_t blankRecord 400) [('R', ['1'])] [artAns]).effects =
        [.sayBanner, .sayInvalidRetina]) ∧
    ((main (sampleEnv size_t blankRecord 400) [('R', ['9'])] [artAns]).status = EXIT_FAILURE ∧
      (main (sampleEnv size_t blankRecord 400) [('R', ['9'])] [artAns]).effects =
        [.sayBanner, .sayInvalidRetina]) ∧
    optionLoop (start (sampleEnv size_t blankRecord 400)) [('b', ['8'])] =
      .next { start (sampleEnv size_t blankRecord 400) with
        options := { defaultOptions with bits := 8 } } ∧
    optionLoop (start (sampleEnv size_t blankRecord 400)) [('b', ['9'])] =
      .next { start (sampleEnv size_t blankRecord 400) with
        options := { defaultOptions with bits := 9 } } ∧
    optionLoop (start (sampleEnv size_t blankRecord 400)) [('R', ['2'])] =
      .next { start (sampleEnv size_t blankRecord 400) with
        options := { defaultOptions with retinaScaleFactor := 2 } } := by
  have rej : ∀ (a : CStr) (lo hi : Int), LLONG_MIN ≤ lo → hi ≤ LLONG_MAX →
      (strtonum a lo hi).2.isSome = true → ¬ ∃ n, Denotes a n ∧ lo ≤ n ∧ n ≤ hi := by
    rintro a lo hi hlo hhi hs ⟨n, hd, h1, h2⟩
    rw [strtonum_of_denotes hd hlo h1 h2 hhi] at hs
    cases hs
  have one : ∀ d : Char, isdigit d = true → Denotes [d] ((d.toNat - 48 : Nat) : Int) := by
    intro d hd
    refine ⟨[], [], [d], rfl, by simp, by simp, by simpa using hd, Or.inl ⟨Or.inl rfl, ?_⟩⟩
    simp [decimalValue]
  refine ⟨?_, ?_, ?_, ?_, ?_, ?_, ?_⟩
  · exact (@C8_numeric_options (sampleEnv size_t blankRecord 400) [] _ rfl rfl
      ['7'] [] [artAns]).1.2 (rej _ _ _ (by decide) (by decide) (by decide))
  · exact (@C8_numeric_options (sampleEnv size_t blankRecord 400) [] _ rfl rfl
      ['1', '0'] [] [artAns]).1.2 (rej _ _ _ (by decide) (by decide) (by decide))
  · exact (@C8_numeric_options (sampleEnv size_t blankRecord 400) [] _ rfl rfl
      ['1'] [] [artAns]).2.2.2 (rej _ _ _ (by decide) (by decide) (by decide))
  · exact (@C8_numeric_options (sampleEnv size_t blankRecord 400) [] _ rfl rfl
      ['9'] [] [artAns]).2.2.2 (rej _ _ _ (by decide) (by decide) (by decide))
  · exact (@C8_numeric_options (sampleEnv size_t blankRecord 400) [] _ rfl rfl
      ['8'] [] [artAns]).1.1 8 (one '8' (by decide)) (by decide) (by decide)
  · exact (@C8_numeric_options (sampleEnv size_t blankRecord 400) [] _ rfl rfl
      ['9'] [] [artAns]).1.1 9 (one '9' (by decide)) (by decide) (by decide)
  · exact (@C8_numeric_options (sampleEnv size_t blankRecord 400) [] _ rfl rfl
      ['2'] [] [artAns]).2.2.1 2 (one '2' (by decide)) (by decide) (by decide)

/-! ## Scaled-variant path (C7) -/

theorem applyDefaults_scale (o : ansilove_options) :
    (applyDefaults o).retinaScaleFactor = o.retinaScaleFactor := by
  obtain ⟨fileName, retina, font, mode, bits, columns, diz, icecolors, factor⟩ := o
  cases font <;> cases mode <;> rfl

theorem preparedOptions_retina (input : CStr) (output : Option CStr) (o : ansilove_options) :
    (preparedOptions input output o).retina =
      if o.retinaScaleFactor ≠ 0 then
        some ((match output with
            | none => input ++ ['.', 'p', 'n', 'g']
            | some outputName => outputName) ++
          ['@'] ++ fmtInt o.retinaScaleFactor ++ ['x', '.', 'p', 'n', 'g'])
      else o.retina := by
  unfold preparedOptions
  rw [markDiz_retina, (applyDefaults_fields _).2.1]
  unfold outputNames
  cases output <;> simp only <;> split <;> simp_all

theorem fmtInt_natCast (f : Nat) : fmtInt (f : Int) = Nat.toDigits 10 f := by
  simp [fmtInt]

/-- C7: in a run that reaches the render block, with `primary` the resolved
primary output path (`options.fileName`): when the last of the `-r`/`-R`
options is `-r`, `options.retina` is `primary` followed by `@2x.png`; when it
is `-R a`, `a` denotes an integer `f` in 2..8 and `options.retina` is
`primary` followed by `@`, the decimal digits of `f` and `x.png`; when there
is no `-r`/`-R` and `ansilove_init` left the scale factor 0, `options.retina`
is left as initialised. -/
theorem C7_scaled_variant_path {env : Env} {opts : List (Char × CStr)}
    {operands : List CStr} {s : Locals} {input : CStr} {record : sauce}
    (h : Prepares env opts operands s input record) :
    ∃ primary, (main env opts operands).options.fileName = some primary ∧
      (∀ pre a post, opts = pre ++ ('r', a) :: post → Absent 'r' post → Absent 'R' post →
        (main env opts operands).options.retina =
          some (primary ++ ['@', '2', 'x', '.', 'p', 'n', 'g'])) ∧
      (∀ pre a post, opts = pre ++ ('R', a) :: post → Absent 'r' post → Absent 'R' post →
        ∃ f : Nat, 2 ≤ f ∧ f ≤ 8 ∧ Denotes a f ∧
          (main env opts operands).options.retina =
            some (primary ++ ['@'] ++ Nat.toDigits 10 f ++ ['x', '.', 'p', 'n', 'g'])) ∧
      (Absent 'r' opts → Absent 'R' opts → env.init.retinaScaleFactor = 0 →
        (main env opts operands).options.retina = env.init.retina) := by
  refine ⟨_, by rw [main_prepares_options h, preparedOptions_fileName], ?_, ?_, ?_⟩
  · intro pre a post e hr hR
    have hl := h.loop
    rw [e] at hl
    obtain ⟨m, _, h2⟩ := optionLoop_split hl
    obtain ⟨m2, h3, h4⟩ := optionLoop_cons h2
    have e2 := optionLoop_scale hr hR h4
    have e3 : m2.options.retinaScaleFactor = 2 := by
      rw [optionCase_eq] at h3
      simp only [show ¬ ('r' : Char) = 'b' by decide, show ¬ ('r' : Char) = 'c' by decide,
        show ¬ ('r' : Char) = 'e' by decide, show ¬ ('r' : Char) = 'f' by decide,
        show ¬ ('r' : Char) = 'h' by decide, show ¬ ('r' : Char) = 'i' by decide,
        show ¬ ('r' : Char) = 'm' by decide, show ¬ ('r' : Char) = 'o' by decide,
        if_false, if_true] at h3
      cases h3
      rfl
    have e4 : fmtInt 2 = ['2'] := by decide
    rw [main_prepares_options h, preparedOptions_retina, e2, e3, if_pos (by decide), e4]
    simp
  · intro pre a post e hr hR
    have hl := h.loop
    rw [e] at hl
    obtain ⟨m, _, h2⟩ := optionLoop_split hl
    obtain ⟨m2, h3, h4⟩ := optionLoop_cons h2
    have e2 := optionLoop_scale hr hR h4
    rcases optionCase_next h3 with ⟨f, _⟩ | ⟨f, _⟩ | ⟨f, _⟩ | ⟨f, _⟩ | ⟨f, _⟩ | ⟨f, _⟩ |
      ⟨f, _⟩ | ⟨_, hok, e3⟩ | ⟨f, _⟩ | ⟨_, _, _, _, f, _⟩
    all_goals first | (exact absurd f (by decide)) | skip
    obtain ⟨hd, h1, h2⟩ := @denotes_of_strtonum a 2 8 (by decide) (by decide) hok
    obtain ⟨k, hk⟩ : ∃ k : Nat, (strtonum a 2 8).1 = (k : Int) :=
      ⟨((strtonum a 2 8).1).toNat, by omega⟩
    have e4 : s.options.retinaScaleFactor = (k : Int) := by rw [e2, e3]; exact hk
    rw [hk] at hd h1 h2
    refine ⟨k, by omega, by omega, hd, ?_⟩
    rw [main_prepares_options h, preparedOptions_retina, e4, if_pos (by omega),
      fmtInt_natCast]
  · intro hr hR h0
    have e2 : s.options.retinaScaleFactor = 0 := (optionLoop_scale hr hR h.loop).trans h0
    rw [main_prepares_options h, preparedOptions_retina, e2, if_neg (by decide)]
    exact (optionLoop_paths_diz h.loop).2.1

/-- C7 (witness): `-r -o out/final.png art.ans` gives `out/final.png@2x.png`;
`-R 3 art.ans` gives `art.ans.png@3x.png`; `art.ans` alone gives no scaled
path. -/
theorem C7_scaled_variant_path_witness :
    (main (sampleEnv size_t blankRecord 400) [('r', []), ('o', outFinalPng)]
        [artAns]).options.retina = some (outFinalPng ++ ['@', '2', 'x', '.', 'p', 'n', 'g']) ∧
      (main (sampleEnv size_t blankRecord 400) [('R', ['3'])] [artAns]).options.retina =
        some (artAns ++ ['.', 'p', 'n', 'g', '@', '3', 'x', '.', 'p', 'n', 'g']) ∧
      (main (sampleEnv size_t blankRecord 400) [] [artAns]).options.retina = none := by
  obtain ⟨p1, hp1, hr1, _, _⟩ := C7_scaled_variant_path
    (show Prepares (sampleEnv size_t blankRecord 400) [('r', []), ('o', outFinalPng)] [artAns]
      { options := { defaultOptions with retinaScaleFactor := 2 }, output := some outFinalPng,
        justDisplaySAUCE := false } artAns blankRecord from ⟨rfl, rfl, rfl, rfl, rfl⟩)
  obtain ⟨p2, hp2, _, hR2, _⟩ := C7_scaled_variant_path
    (show Prepares (sampleEnv size_t blankRecord 400) [('R', ['3'])] [artAns]
      { options := { defaultOptions with retinaScaleFactor := 3 }, output := none,
        justDisplaySAUCE := false } artAns blankRecord from ⟨rfl, rfl, rfl, rfl, rfl⟩)
  obtain ⟨p3, _, _, _, h03⟩ := C7_scaled_variant_path
    (prepares_sample size_t blankRecord 400 artAns)
  refine ⟨?_, ?_, h03 (by decide) (by decide) rfl⟩
  · have e : p1 = outFinalPng := by
      have : some p1 = some outFinalPng := hp1.symm.trans (by decide)
      simpa using this
    rw [hr1 [] [] [('o', outFinalPng)] rfl (by decide) (by decide), e]
  · decide

/-! ## Display-only mode (C9) -/

theorem touchesInput_reportSauce (input : CStr) (b : Bool) (record : sauce) :
    ∀ e ∈ reportSauce input b record, e.touchesInput = false := by
  intro e he
  unfold reportSauce at he
  split at he
  · simp at he; subst he; rfl
  · simp only [List.mem_append] at he
    rcases he with ((((((he | he) | he) | he) | he) | he) | he)
    · simp at he
      rcases he with h | h | h | h | h | h | h <;> subst h <;> rfl
    all_goals split at he <;> simp at he
    · subst he; rfl
    · subst he; rfl
    · subst he; rfl
    · subst he; rfl
    · subst he; rfl
    · rcases he with h | ⟨i, _, h⟩ <;> subst h <;> rfl

/-- C9 (counterexample): `-s` does not carry every other option setting to the
record display. With `-s -b 7 art.ans` the option loop returns at line 154:
`main` prints the banner and the bits diagnostic, shows no record and exits
with status 1. With `-s -h art.ans` it returns at line 176: the help text is
printed instead of the record (exit status 0), and the input is not even
probed. -/
theorem C9_display_only_stops_in_option_loop :
    (main (sampleEnv size_t (sampleRecord 0) 400) [('s', []), ('b', ['7'])]
        [artAns]).status = EXIT_FAILURE ∧
      (main (sampleEnv size_t (sampleRecord 0) 400) [('s', []), ('b', ['7'])]
        [artAns]).effects = [.sayBanner, .sayInvalidBits] ∧
      (main (sampleEnv size_t (sampleRecord 0) 400) [('s', []), ('h', [])]
        [artAns]).status = EXIT_SUCCESS ∧
      (main (sampleEnv size_t (sampleRecord 0) 400) [('s', []), ('h', [])]
        [artAns]).effects = [.sayBanner, .showHelp] := by
  decide

/-- C9 (amended): when `-s` is among the options, the option loop runs to its
end (every `-b`, `-c`, `-R` argument is accepted and there is no `-e`, `-h`,
`-v`) and `sauceReadFileName` finds the input, `main` ends with exit status 0; its
effects are the banner, the SAUCE probe and the report of the record (the
"no SAUCE record" notice, or the Id, Title, Author, Group, Date, Datatype and
Filetype lines followed by the optional ones); none of them opens, stats,
maps or closes the input or calls a renderer, and `options.fileName` and
`options.retina` are left as `ansilove_init` set them. -/
theorem C9_display_only {env : Env} {opts : List (Char × CStr)} {operands : List CStr}
    {s : Locals} {input : CStr} {record : sauce} (hp : env.pledgeOk = true)
    (hl : optionLoop (start env) opts = .next s) (hs : ∃ p ∈ opts, p.1 = 's')
    (ho : operands.head? = some input) (hr : env.sauceRead input = some record) :
    (main env opts operands).status = EXIT_SUCCESS ∧
      (main env opts operands).effects =
        [.sayBanner, .sauceReadFileName input] ++
          reportSauce input (record.ID = SAUCE_ID) record ∧
      (record.ID ≠ SAUCE_ID →
        reportSauce input (record.ID = SAUCE_ID) record = [.sayNoSauce input]) ∧
      (record.ID = SAUCE_ID →
        [.sayId record.ID record.version, .sayTitle record.title, .sayAuthor record.author,
          .sayGroup record.group, .sayDate record.date, .sayDatatype record.dataType,
          .sayFiletype record.fileType] <+: reportSauce input (record.ID = SAUCE_ID) record) ∧
      rendererCalls (main env opts operands).effects = [] ∧
      (∀ e ∈ (main env opts operands).effects, e.touchesInput = false) ∧
      (main env opts operands).options.fileName = env.init.fileName ∧
      (main env opts operands).options.retina = env.init.retina := by
  have hd : s.justDisplaySAUCE = true := by
    rw [optionLoop_display hl]
    obtain ⟨p, hp1, hp2⟩ := hs
    simp only [start, Bool.false_or, List.any_eq_true, decide_eq_true_eq]
    exact ⟨p, hp1, hp2⟩
  have hm : main env opts operands =
      ⟨EXIT_SUCCESS, [.sayBanner, .sauceReadFileName input] ++
        reportSauce input (record.ID = SAUCE_ID) record, s.options⟩ := by
    cases operands with
    | nil => simp at ho
    | cons i rest =>
      simp only [List.head?_cons, Option.some.injEq] at ho
      subst ho
      unfold main
      simp only [hp, hl, hr, hd]
      rfl
  rw [hm]
  refine ⟨rfl, rfl, ?_, ?_, ?_, ?_, (optionLoop_paths_diz hl).1, (optionLoop_paths_diz hl).2.1⟩
  · intro hid
    simp [reportSauce, hid]
  · intro hid
    simp only [reportSauce, hid, decide_True, Bool.not_true, Bool.false_eq_true, if_false,
      List.append_assoc]
    exact List.prefix_append _ _
  · show rendererCalls ([Effect.sayBanner, .sauceReadFileName input] ++ _) = []
    unfold rendererCalls
    rw [List.filterMap_append, filterMap_asRender_nil _ _ (asRender_reportSauce _ _ _)]
    rfl
  · intro e he
    simp only [List.mem_append, List.mem_cons, List.mem_singleton, List.not_mem_nil,
      or_false] at he
    rcases he with (he | he) | he
    · subst he; rfl
    · subst he; rfl
    · exact touchesInput_reportSauce _ _ _ e he

/-- C9 (witness): `-s -r -b 9 art.ans` on a file with a SAUCE record only
displays the record. -/
theorem C9_display_only_witness :
    (main (sampleEnv size_t (sampleRecord 0) 400) [('s', []), ('r', []), ('b', ['9'])]
        [artAns]).status = EXIT_SUCCESS ∧
      (main (sampleEnv size_t (sampleRecord 0) 400) [('s', []), ('r', []), ('b', ['9'])]
        [artAns]).effects =
        [.sayBanner, .sauceReadFileName artAns] ++
          reportSauce artAns ((sampleRecord 0).ID = SAUCE_ID) (sampleRecord 0) ∧
      (main (sampleEnv size_t (sampleRecord 0) 400) [('s', []), ('r', []), ('b', ['9'])]
        [artAns]).options.fileName = none := by
  have h := @C9_display_only (sampleEnv size_t (sampleRecord 0) 400)
    [('s', []), ('r', []), ('b', ['9'])] [artAns]
    ⟨{ defaultOptions with retinaScaleFactor := 2, bits := 9 }, none, true⟩
    artAns (sampleRecord 0) rfl (by decide) ⟨('s', []), by simp, rfl⟩ rfl rfl
  exact ⟨h.1, h.2.1, h.2.2.2.2.2.2.1⟩

end Ansilove
